import Mathlib

/-!
Tiling Assistant: rectangle algebra, free screen space and the topmost tile group.

A shallow embedding of `util.js` of the Tiling Assistant shell extension.
Rectangles are `Meta.Rectangle` values with integer fields; coordinates are
modelled as unbounded integers (screen coordinates are far away from the limits
of the 32-bit fields).  Values that the source reads from the shell (current
monitor, its geometry, the work area, the gap setting) are collected in `Env`.
-/

namespace TilingAssistant

/-! ## Definitions -/

/-- Rectangle with integer position and size, the value type `Meta.Rectangle`. -/
structure Rect where
  x : Int
  y : Int
  width : Int
  height : Int
deriving DecidableEq, Repr

namespace Rect

/-- Modelled from the spec: `Meta.Rectangle.area` is a method of the windowing
library, not of `util.js`; the area of a rectangle is width times height. -/
def area (r : Rect) : Int := r.width * r.height

/-- Modelled from the spec: `Meta.Rectangle.equal` is a method of the windowing
library; two rectangles are equal when all four fields agree. -/
def equal (r1 r2 : Rect) : Bool :=
  r1.x == r2.x && r1.y == r2.y && r1.width == r2.width && r1.height == r2.height

/-- Modelled from the spec: `Meta.Rectangle.overlap` is a method of the windowing
library; the standard axis-aligned test, rectangles that only touch do not
overlap. -/
def overlap (r1 r2 : Rect) : Bool :=
  !(decide (r1.x + r1.width ≤ r2.x) || decide (r2.x + r2.width ≤ r1.x) ||
    decide (r1.y + r1.height ≤ r2.y) || decide (r2.y + r2.height ≤ r1.y))

/-- Modelled from the spec: `Meta.Rectangle.intersect` is a method of the
windowing library; it returns a flag and the intersection, the flag being true
exactly when the intersection has positive width and height (otherwise the
returned rectangle is empty). -/
def intersect (src1 src2 : Rect) : Bool × Rect :=
  let dest_x := max src1.x src2.x
  let dest_y := max src1.y src2.y
  let dest_w := min (src1.x + src1.width) (src2.x + src2.width) - dest_x
  let dest_h := min (src1.y + src1.height) (src2.y + src2.height) - dest_y
  if 0 < dest_w ∧ 0 < dest_h then
    (true, { x := dest_x, y := dest_y, width := dest_w, height := dest_h })
  else
    (false, { x := 0, y := 0, width := 0, height := 0 })

/-- The rectangle `r` lies within `a` (all four edges). -/
def within (r a : Rect) : Prop :=
  a.x ≤ r.x ∧ a.y ≤ r.y ∧ r.x + r.width ≤ a.x + a.width ∧ r.y + r.height ≤ a.y + a.height

instance (r a : Rect) : Decidable (within r a) := by
  unfold within; infer_instance

end Rect

/-- Sum of the areas of a list of rectangles. -/
def areaSum (rs : List Rect) : Int := (rs.map Rect.area).sum

/-- Area of `intersect(a, b)`, or of the empty rectangle when they do not intersect. -/
def intersectArea (a b : Rect) : Int :=
  if (a.intersect b).1 then (a.intersect b).2.area else 0

/-- `equalApprox(value, value2, margin)`. -/
def equalApprox (value value2 margin : Int) : Bool :=
  if decide (value ≥ value2 - margin) && decide (value ≤ value2 + margin) then true else false

/-- A window as seen by `util.js`: the values read from the window manager and
the two fields the extension attaches (`isTiled` holds the frame rectangle saved
before the first tiling, `tiledRect` the logical tiled rectangle). -/
structure Window where
  id : Nat
  monitor : Int
  frameRect : Rect
  workArea : Rect
  maximized : Nat
  isTiled : Option Rect
  tiledRect : Option Rect
deriving DecidableEq, Repr

/-- The value `Meta.MaximizeFlags.BOTH` (horizontal 1 + vertical 2). -/
def MaximizeFlags.BOTH : Nat := 3

/-- What the source reads from the shell: the geometry of the current monitor,
its index, its work area on the active workspace, the `window-gaps` setting and
the list `getOpenWindows()`. -/
structure Env where
  displayRect : Rect
  currentMonitor : Int
  activeWorkArea : Rect
  gap : Int
  openWindows : List Window

/-- The statement `if (cond) resultRects.push(r)`. -/
def pushIf (resultRects : List Rect) (cond : Bool) (r : Rect) : List Rect :=
  if cond then resultRects ++ [r] else resultRects

/-- `rectDiff(rectA, rectB, ignoreMargin = 35, preferVertical = null)`.
The test `displayRect.width > displayRect.height * .9` is written over the
integers as `9 * height < 10 * width`. -/
def rectDiff (env : Env) (rectA rectB : Option Rect) (ignoreMargin : Int := 35)
    (preferVertical : Option Bool := none) : List Rect :=
  match rectA, rectB with
  | some rectA, some rectB =>
    let displayRect := env.displayRect
    let preferVertical : Bool :=
      match preferVertical with
      | none => decide (9 * displayRect.height < 10 * displayRect.width)
      | some b => b
    if preferVertical then
      let leftRect_width := rectB.x - rectA.x
      let r1 := pushIf [] (decide (leftRect_width > ignoreMargin) && decide (rectA.height > ignoreMargin))
        { x := rectA.x, y := rectA.y, width := leftRect_width, height := rectA.height }
      let rectA_x2 := rectA.x + rectA.width
      let rectB_x2 := rectB.x + rectB.width
      let rightRect_width := rectA_x2 - rectB_x2
      let r2 := pushIf r1 (decide (rightRect_width > ignoreMargin) && decide (rectA.height > ignoreMargin))
        { x := rectB_x2, y := rectA.y, width := rightRect_width, height := rectA.height }
      let sideRects_x := if rectB.x > rectA.x then rectB.x else rectA.x
      let sideRects_x2 := if rectB_x2 < rectA_x2 then rectB_x2 else rectA_x2
      let sideRects_width := sideRects_x2 - sideRects_x
      let topRect_height := rectB.y - rectA.y
      let r3 := pushIf r2 (decide (topRect_height > ignoreMargin) && decide (sideRects_width > ignoreMargin))
        { x := sideRects_x, y := rectA.y, width := sideRects_width, height := topRect_height }
      let rectA_y2 := rectA.y + rectA.height
      let rectB_y2 := rectB.y + rectB.height
      let bottomRect_height := rectA_y2 - rectB_y2
      pushIf r3 (decide (bottomRect_height > ignoreMargin) && decide (sideRects_width > ignoreMargin))
        { x := sideRects_x, y := rectB_y2, width := sideRects_width, height := bottomRect_height }
    else
      let topRect_height := rectB.y - rectA.y
      let r1 := pushIf [] (decide (topRect_height > ignoreMargin) && decide (rectA.width > ignoreMargin))
        { x := rectA.x, y := rectA.y, width := rectA.width, height := topRect_height }
      let rectA_y2 := rectA.y + rectA.height
      let rectB_y2 := rectB.y + rectB.height
      let bottomRect_height := rectA_y2 - rectB_y2
      let r2 := pushIf r1 (decide (bottomRect_height > ignoreMargin) && decide (rectA.width > ignoreMargin))
        { x := rectA.x, y := rectB_y2, width := rectA.width, height := bottomRect_height }
      let sideRects_y := if rectB.y > rectA.y then rectB.y else rectA.y
      let sideRects_y2 := if rectB_y2 < rectA_y2 then rectB_y2 else rectA_y2
      let sideRects_height := sideRects_y2 - sideRects_y
      let leftRect_width := rectB.x - rectA.x
      let r3 := pushIf r2 (decide (leftRect_width > ignoreMargin) && decide (sideRects_height > ignoreMargin))
        { x := rectA.x, y := sideRects_y, width := leftRect_width, height := sideRects_height }
      let rectA_x2 := rectA.x + rectA.width
      let rectB_x2 := rectB.x + rectB.width
      let rightRect_width := rectA_x2 - rectB_x2
      pushIf r3 (decide (rightRect_width > ignoreMargin) && decide (sideRects_height > ignoreMargin))
        { x := rectB_x2, y := sideRects_y, width := rightRect_width, height := sideRects_height }
  | _, _ => []

/-- The first inner loop of `getTopTileGroup`: does a window of
`notGroupedWindows` overlap `wRect`?  The rectangle of a window is its
`tiledRect` when `isTiled` is set and its frame rectangle otherwise; the result
is `none` when a method is called on a missing rectangle. -/
def overlapsNotGrouped : List Window → Rect → Option Bool
  | [], _ => some false
  | nW :: rest, wRect =>
    match (if nW.isTiled.isSome then nW.tiledRect else some nW.frameRect) with
    | none => none
    | some nWR => if nWR.overlap wRect then some true else overlapsNotGrouped rest wRect

/-- The second inner loop of `getTopTileGroup`: does the `tiledRect` of a window
of `groupedWindows` overlap `wRect`? -/
def overlapsGrouped : List Window → Rect → Option Bool
  | [], _ => some false
  | g :: rest, wRect =>
    match g.tiledRect with
    | none => none
    | some gR => if gR.overlap wRect then some true else overlapsGrouped rest wRect

/-- The loop variables of `getTopTileGroup`. -/
structure ScanState where
  groupedWindows : List Window
  notGroupedWindows : List Window
  groupedWindowsArea : Int
deriving DecidableEq, Repr

/-- The main loop of `getTopTileGroup` over the windows still to be visited;
`none` is a fault (a method called on a missing value), `some` the returned
`groupedWindows`. -/
def scanWindows (currMonitor : Int) : List Window → ScanState → Option (List Window)
  | [], st => some st.groupedWindows
  | window :: rest, st =>
    if window.monitor != currMonitor then
      scanWindows currMonitor rest st
    else if window.isTiled.isSome then
      let workArea := window.workArea
      if window.maximized == MaximizeFlags.BOTH then
        some st.groupedWindows
      else
        match window.tiledRect with
        | none => none
        | some wRect =>
          if wRect.equal workArea then
            some st.groupedWindows
          else if st.groupedWindowsArea ≥ workArea.area then
            some st.groupedWindows
          else
            match overlapsNotGrouped st.notGroupedWindows wRect with
            | none => none
            | some true => scanWindows currMonitor rest st
            | some false =>
              match overlapsGrouped st.groupedWindows wRect with
              | none => none
              | some true =>
                scanWindows currMonitor rest
                  { st with notGroupedWindows := st.notGroupedWindows ++ [window] }
              | some false =>
                scanWindows currMonitor rest
                  { st with
                    groupedWindows := st.groupedWindows ++ [window]
                    groupedWindowsArea := st.groupedWindowsArea + wRect.area }
    else
      scanWindows currMonitor rest
        { st with notGroupedWindows := st.notGroupedWindows ++ [window] }

/-- The local `currMonitor` of `getTopTileGroup`: the current monitor when the
topmost window is ignored, else the monitor of `openWindows[0]`; `none` when
`openWindows[0]` does not exist (`get_monitor` is then called on `undefined`). -/
def currMonitor (env : Env) (openWindows : List Window) (ignoreTopWindow : Bool) : Option Int :=
  if ignoreTopWindow then some env.currentMonitor
  else
    match openWindows with
    | [] => none
    | top :: _ => some top.monitor

/-- The windows visited by the loop of `getTopTileGroup`: it starts at index 1
when the topmost window is ignored and at index 0 otherwise. -/
def scannedWindows (openWindows : List Window) (ignoreTopWindow : Bool) : List Window :=
  if ignoreTopWindow then openWindows.drop 1 else openWindows

/-- `getTopTileGroup(openWindows = null, ignoreTopWindow = true)`: the list is
given top to bottom; `none` is a fault. -/
def getTopTileGroup (env : Env) (openWindows : Option (List Window) := none)
    (ignoreTopWindow : Bool := true) : Option (List Window) :=
  let openWindows := match openWindows with
    | none => env.openWindows
    | some ws => ws
  match currMonitor env openWindows ignoreTopWindow with
  | none => none
  | some cm =>
    scanWindows cm (scannedWindows openWindows ignoreTopWindow)
      { groupedWindows := [], notGroupedWindows := [], groupedWindowsArea := 0 }

/-- The body of the second `forEach` of `getFreeScreenRects`: all intersections
of a rectangle of `singleFreeScreenRects` with a rectangle of `freeScreenRects`
that are wider and higher than the gap. -/
def intersections (gap : Int) (freeScreenRects singleFreeScreenRects : List Rect) : List Rect :=
  singleFreeScreenRects.flatMap fun freeRect =>
    freeScreenRects.filterMap fun fr =>
      let res := fr.intersect freeRect
      if res.1 && decide (res.2.width > gap) && decide (res.2.height > gap) then some res.2 else none

/-- The local `entireWorkArea` of `getFreeScreenRects`: the work area of the
first window of the group, or of the current monitor when the group is empty. -/
def entireWorkArea (env : Env) (tileGroup : List Window) : Rect :=
  match tileGroup with
  | w :: _ => w.workArea
  | [] => env.activeWorkArea

/-- `getFreeScreenRects(tileGroup)`; `rectDiff` is called with its default
margin 35 and orientation unset. -/
def getFreeScreenRects (env : Env) (tileGroup : List Window) : List Rect :=
  let freeScreenForWindows :=
    tileGroup.map fun w => rectDiff env (some (entireWorkArea env tileGroup)) w.tiledRect
  freeScreenForWindows.foldl (intersections env.gap) [entireWorkArea env tileGroup]

/-- The unit cell with lower corner `(px, py)` belongs to the rectangle `r`. -/
def Rect.coversCell (r : Rect) (px py : Int) : Prop :=
  r.x ≤ px ∧ px < r.x + r.width ∧ r.y ≤ py ∧ py < r.y + r.height

/-- The tiled rectangles of the group together cover `workArea`: every unit cell
of the work area belongs to the `tiledRect` of some window of the group. -/
def CoversWorkArea (workArea : Rect) (tileGroup : List Window) : Prop :=
  ∀ px py : Int, workArea.coversCell px py →
    ∃ w ∈ tileGroup, ∃ t, w.tiledRect = some t ∧ t.coversCell px py

/-- A sample environment: one 1920x1080 monitor whose work area is the whole
monitor, no gaps. -/
def sampleEnv : Env :=
  { displayRect := ⟨0, 0, 1920, 1080⟩, currentMonitor := 0,
    activeWorkArea := ⟨0, 0, 1920, 1080⟩, gap := 0, openWindows := [] }

/-- A window tiled to the left half of the sample work area. -/
def tiledA : Window :=
  { id := 1, monitor := 0, frameRect := ⟨0, 0, 960, 1080⟩, workArea := ⟨0, 0, 1920, 1080⟩,
    maximized := 0, isTiled := some ⟨100, 100, 800, 600⟩, tiledRect := some ⟨0, 0, 960, 1080⟩ }

/-- A window tiled to the right half of the sample work area. -/
def tiledB : Window :=
  { id := 2, monitor := 0, frameRect := ⟨960, 0, 960, 1080⟩, workArea := ⟨0, 0, 1920, 1080⟩,
    maximized := 0, isTiled := some ⟨300, 200, 800, 600⟩, tiledRect := some ⟨960, 0, 960, 1080⟩ }

/-- A floating (untiled) window on the sample monitor. -/
def floatingTop : Window :=
  { id := 0, monitor := 0, frameRect := ⟨200, 150, 700, 500⟩, workArea := ⟨0, 0, 1920, 1080⟩,
    maximized := 0, isTiled := none, tiledRect := none }

/-- A window tiled to the right, its rectangle reaching into the left half. -/
def wideRight : Window :=
  { id := 3, monitor := 0, frameRect := ⟨900, 0, 1020, 1080⟩, workArea := ⟨0, 0, 1920, 1080⟩,
    maximized := 0, isTiled := some ⟨50, 50, 640, 480⟩, tiledRect := some ⟨900, 0, 1020, 1080⟩ }

/-- A tiled window that is fully maximized. -/
def maximizedWindow : Window :=
  { id := 4, monitor := 0, frameRect := ⟨0, 0, 1920, 1080⟩, workArea := ⟨0, 0, 1920, 1080⟩,
    maximized := 3, isTiled := some ⟨10, 10, 640, 480⟩, tiledRect := some ⟨0, 0, 1920, 1080⟩ }

/-- The tiled rectangles of two windows do not overlap. -/
def NoOverlap (a b : Window) : Prop :=
  ∀ ra rb, a.tiledRect = some ra → b.tiledRect = some rb → ra.overlap rb = false

/-- A window on monitor `cm` with work area `wa` that is tiled, not fully
maximized, and whose tiled rectangle has positive width and height, lies within
the work area and is not equal to it. -/
def ProperTile (cm : Int) (wa : Rect) (w : Window) : Prop :=
  w.monitor = cm ∧ w.isTiled.isSome = true ∧ w.maximized ≠ MaximizeFlags.BOTH ∧ w.workArea = wa ∧
    ∃ t, w.tiledRect = some t ∧ 0 < t.width ∧ 0 < t.height ∧ t.within wa ∧ t ≠ wa

/-- State invariant of the extension: a window with `isTiled` set has a
`tiledRect` (`tileWindow` sets both, `restoreWindowSize` clears both). -/
def Window.WellFormed (w : Window) : Prop :=
  w.isTiled.isSome = true → w.tiledRect.isSome = true

/-- The unit cells of a rectangle. -/
def cells (r : Rect) : Finset (Int × Int) :=
  Finset.Ico r.x (r.x + r.width) ×ˢ Finset.Ico r.y (r.y + r.height)

/-- The tiled rectangles of a list of windows. -/
def tiledRects (ws : List Window) : List Rect := ws.filterMap fun w => w.tiledRect

/-! ### Tile rectangle for a side -/

/-- A JavaScript number that is an integer or an integer plus one half (the only
non-integers of `getTileRectForSide` are halves), stored as twice its value. -/
structure Num where
  twice : Int
deriving DecidableEq, Repr

namespace Num

/-- The number `n`. -/
def ofInt (n : Int) : Num := ⟨2 * n⟩

/-- The number `n / 2` (JavaScript division, exact). -/
def half (n : Int) : Num := ⟨n⟩

/-- Subtraction of numbers. -/
def sub (a b : Num) : Num := ⟨a.twice - b.twice⟩

/-- Modelled from the spec: rectangles have integer fields; a number stored in a
field of a `Meta.Rectangle` is converted to an integer by the language binding,
which drops the fractional part (rounds toward zero). -/
def toInt (v : Num) : Int := Int.tdiv v.twice 2

end Num

/-- The constructor `new Meta.Rectangle({x, y, width, height})` applied to numbers. -/
def Rect.new (x y width height : Num) : Rect :=
  { x := x.toInt, y := y.toInt, width := width.toInt, height := height.toInt }

/-- The values of `Meta.Side`. -/
def Side.LEFT : Nat := 1

/-- The value `Meta.Side.RIGHT`. -/
def Side.RIGHT : Nat := 2

/-- The value `Meta.Side.TOP`. -/
def Side.TOP : Nat := 4

/-- The value `Meta.Side.BOTTOM`. -/
def Side.BOTTOM : Nat := 8

/-- The comparator of the sort in `getTileRectForSide` does not put `r2` before
`r1`: left to right, then top to bottom. -/
def rectLE (r1 r2 : Rect) : Prop := r1.x < r2.x ∨ (r1.x = r2.x ∧ r1.y ≤ r2.y)

instance (r1 r2 : Rect) : Decidable (rectLE r1 r2) := by
  unfold rectLE; infer_instance

/-- The call `screenRects.sort(...)`: a stable sort with the comparator `rectLE`
(insertion from the right keeps equal elements in their order). -/
def sortScreenRects (screenRects : List Rect) : List Rect :=
  List.insertionSort rectLE screenRects

/-- The loop of `case Meta.Side.LEFT` over the (remaining) rectangles; the value
of `width` after the loop. -/
def searchLeft (gaps : Int) (workArea : Rect) : List Rect → Int
  | [] => 0
  | r :: rest =>
    let linedUpRects :=
      r :: rest.filter fun r2 => equalApprox (r.x + r.width) (r2.x + r2.width) gaps
    let h := linedUpRects.foldl (fun h r => h + r.height) 0
    if equalApprox h workArea.height gaps then r.x + r.width - workArea.x
    else searchLeft gaps workArea rest

/-- The loop of `case Meta.Side.RIGHT` over the (remaining) rectangles of the
reversed list; the value of `width` after the loop. -/
def searchRight (gaps : Int) (workArea : Rect) : List Rect → Int
  | [] => 0
  | r :: rest =>
    let linedUpRects := r :: rest.filter fun r2 => equalApprox r.x r2.x gaps
    let h := linedUpRects.foldl (fun h r => h + r.height) 0
    if equalApprox h workArea.height gaps then workArea.x + workArea.width - r.x
    else searchRight gaps workArea rest

/-- The loop of `case Meta.Side.TOP`; the value of `height` after the loop. -/
def searchTop (gaps : Int) (workArea : Rect) : List Rect → Int
  | [] => 0
  | r :: rest =>
    let linedUpRects :=
      r :: rest.filter fun r2 => equalApprox (r.y + r.height) (r2.y + r2.height) gaps
    let w := linedUpRects.foldl (fun w r => w + r.width) 0
    if equalApprox w workArea.width gaps then r.y + r.height - workArea.y
    else searchTop gaps workArea rest

/-- The loop of `case Meta.Side.BOTTOM` over the reversed list; the value of
`height` after the loop. -/
def searchBottom (gaps : Int) (workArea : Rect) : List Rect → Int
  | [] => 0
  | r :: rest =>
    let linedUpRects :=
      r :: rest.filter fun r2 =>
        equalApprox (r.y + r.height) (r2.y + r2.height) gaps &&
          !equalApprox (r2.y + r2.height) (workArea.y + workArea.height) gaps
    let w := linedUpRects.foldl (fun w r => w + r.width) 0
    if equalApprox w workArea.width gaps then workArea.y + workArea.height - (r.y + r.height)
    else searchBottom gaps workArea rest

/-- The loops of the corner cases: the width and height of the first rectangle
that satisfies the anchor test, `(0, 0)` when there is none or when the list has
at most one element. -/
def searchCorner (anchored : Rect → Bool) (screenRects : List Rect) : Int × Int :=
  if screenRects.length > 1 then
    match screenRects.find? anchored with
    | some r => (r.width, r.height)
    | none => (0, 0)
  else (0, 0)

/-- The anchor test of `case Meta.Side.TOP + Meta.Side.LEFT`. -/
def anchorTopLeft (gaps : Int) (workArea r : Rect) : Bool :=
  equalApprox r.x workArea.x gaps && equalApprox r.y workArea.y gaps

/-- The anchor test of `case Meta.Side.TOP + Meta.Side.RIGHT`. -/
def anchorTopRight (gaps : Int) (workArea r : Rect) : Bool :=
  equalApprox (r.x + r.width) (workArea.x + workArea.width) gaps && equalApprox r.y workArea.y gaps

/-- The anchor test of `case Meta.Side.BOTTOM + Meta.Side.LEFT`. -/
def anchorBottomLeft (gaps : Int) (workArea r : Rect) : Bool :=
  equalApprox r.x workArea.x gaps &&
    equalApprox (r.y + r.height) (workArea.y + workArea.height) gaps

/-- The anchor test of `case Meta.Side.BOTTOM + Meta.Side.RIGHT`. -/
def anchorBottomRight (gaps : Int) (workArea r : Rect) : Bool :=
  equalApprox (r.x + r.width) (workArea.x + workArea.width) gaps &&
    equalApprox (r.y + r.height) (workArea.y + workArea.height) gaps

/-- The statement `if (!size || equalApprox(size, full, gaps)) size = full / 2`. -/
def halfIfFull (gaps : Int) (size full : Int) : Num :=
  if size = 0 ∨ equalApprox size full gaps = true then Num.half full else Num.ofInt size

/-- `getTileRectForSide(side, workArea, screenRects)`; `none` is the value
`undefined` returned when `side` is none of the eight cases of the `switch`. -/
def getTileRectForSide (env : Env) (side : Nat) (workArea : Rect) (screenRects : List Rect) :
    Option Rect :=
  let screenRects := sortScreenRects screenRects
  let gaps := env.gap
  let wa_x := Num.ofInt workArea.x
  let wa_y := Num.ofInt workArea.y
  let wa_x2 := Num.ofInt (workArea.x + workArea.width)
  let wa_y2 := Num.ofInt (workArea.y + workArea.height)
  if side = Side.LEFT then
    let width := if screenRects.length > 1 then searchLeft gaps workArea screenRects else 0
    let width := halfIfFull gaps width workArea.width
    some (Rect.new wa_x wa_y width (Num.ofInt workArea.height))
  else if side = Side.RIGHT then
    let width :=
      if screenRects.length > 1 then searchRight gaps workArea screenRects.reverse else 0
    let width := halfIfFull gaps width workArea.width
    some (Rect.new (wa_x2.sub width) wa_y width (Num.ofInt workArea.height))
  else if side = Side.TOP then
    let height := if screenRects.length > 1 then searchTop gaps workArea screenRects else 0
    let height := halfIfFull gaps height workArea.height
    some (Rect.new wa_x wa_y (Num.ofInt workArea.width) height)
  else if side = Side.BOTTOM then
    let scr := screenRects.reverse
    let height := if scr.length > 1 then searchBottom gaps workArea scr else 0
    let height := halfIfFull gaps height workArea.height
    some (Rect.new wa_x (wa_y2.sub height) (Num.ofInt workArea.width) height)
  else if side = Side.TOP + Side.LEFT then
    let wh := searchCorner (anchorTopLeft gaps workArea) screenRects
    let width := halfIfFull gaps wh.1 workArea.width
    let height := halfIfFull gaps wh.2 workArea.height
    some (Rect.new wa_x wa_y width height)
  else if side = Side.TOP + Side.RIGHT then
    let wh := searchCorner (anchorTopRight gaps workArea) screenRects
    let width := halfIfFull gaps wh.1 workArea.width
    let height := halfIfFull gaps wh.2 workArea.height
    some (Rect.new (wa_x2.sub width) wa_y width height)
  else if side = Side.BOTTOM + Side.LEFT then
    let wh := searchCorner (anchorBottomLeft gaps workArea) screenRects
    let width := halfIfFull gaps wh.1 workArea.width
    let height := halfIfFull gaps wh.2 workArea.height
    some (Rect.new wa_x (wa_y2.sub height) width height)
  else if side = Side.BOTTOM + Side.RIGHT then
    let wh := searchCorner (anchorBottomRight gaps workArea) screenRects
    let width := halfIfFull gaps wh.1 workArea.width
    let height := halfIfFull gaps wh.2 workArea.height
    some (Rect.new (wa_x2.sub width) (wa_y2.sub height) width height)
  else none

/-- The environment `sampleEnv` with the `window-gaps` setting `g`. -/
def envWithGap (g : Int) : Env := { sampleEnv with gap := g }

/-- The eight values of `side` handled by `getTileRectForSide`. -/
def allSides : List Nat :=
  [Side.LEFT, Side.RIGHT, Side.TOP, Side.BOTTOM, Side.TOP + Side.LEFT, Side.TOP + Side.RIGHT,
    Side.BOTTOM + Side.LEFT, Side.BOTTOM + Side.RIGHT]

/-! ### Tile groups -/

/-- The state behind `updateTileGroup` and `removeTileGroup`.  Windows are named
by their ids.  A tile group is a JavaScript array shared by reference between the
windows it was installed on, so the arrays live in a heap (`arrays`, indexed by
reference) and `tileGroup` holds a reference (`none` is `null` or `undefined`).
Signal handlers are named by their ids, `0` being no handler. -/
structure GroupState where
  arrays : List (List Nat)
  tileGroup : Nat → Option Nat
  groupFocusSignalID : Nat → Nat
  focusHandlers : Nat → List Nat
  unmanagingHandlers : Nat → List Nat
  nextHandlerId : Nat

/-- The array behind a reference. -/
def GroupState.array (st : GroupState) (ref : Nat) : List Nat := st.arrays.getD ref []

/-- The contents of `window.tileGroup`, empty when the window has no group. -/
def groupOf (st : GroupState) (window : Nat) : List Nat :=
  match st.tileGroup window with
  | none => []
  | some ref => st.array ref

/-- The body of the `forEach` of `updateTileGroup` for one window `w`: store the
group, replace the focus handler, add an `unmanaging` handler. -/
def updateTileGroupStep (ref : Nat) (st : GroupState) (w : Nat) : GroupState :=
  let st1 := { st with tileGroup := Function.update st.tileGroup w (some ref) }
  let st2 :=
    if st1.groupFocusSignalID w ≠ 0 then
      { st1 with
        focusHandlers := Function.update st1.focusHandlers w
          ((st1.focusHandlers w).erase (st1.groupFocusSignalID w)) }
    else st1
  let st3 :=
    { st2 with
      groupFocusSignalID := Function.update st2.groupFocusSignalID w st2.nextHandlerId
      focusHandlers := Function.update st2.focusHandlers w
        (st2.focusHandlers w ++ [st2.nextHandlerId])
      nextHandlerId := st2.nextHandlerId + 1 }
  { st3 with
    unmanagingHandlers := Function.update st3.unmanagingHandlers w
      (st3.unmanagingHandlers w ++ [st3.nextHandlerId])
    nextHandlerId := st3.nextHandlerId + 1 }

/-- `updateTileGroup(tileGroup)` for the array with reference `ref`. -/
def updateTileGroup (st : GroupState) (ref : Nat) : GroupState :=
  (st.array ref).foldl (updateTileGroupStep ref) st

/-- A call `updateTileGroup(group)` with a newly created array, as made by
`tileWindow` with the result of `getTopTileGroup`. -/
def updateTileGroupNew (st : GroupState) (group : List Nat) : GroupState :=
  updateTileGroup { st with arrays := st.arrays ++ [group] } st.arrays.length

/-- The callback of the `forEach` of `removeTileGroup` for the element `w`:
`indexOf` and `splice` delete the first occurrence of `window` from the array
of `w`, if `w` has one. -/
def removeFromGroupOf (window : Nat) (st : GroupState) (w : Nat) : GroupState :=
  match st.tileGroup w with
  | none => st
  | some wref => { st with arrays := st.arrays.set wref ((st.array wref).erase window) }

/-- The `forEach` of `removeTileGroup` over the array `ref`, which the callback
may shorten while it is traversed: `n` indices are still to be visited, `k` is
the next one, and an index that is no longer in the array is skipped. -/
def removeLoop (window ref : Nat) : Nat → Nat → GroupState → GroupState
  | 0, _, st => st
  | n + 1, k, st =>
    let st1 :=
      match (st.array ref)[k]? with
      | none => st
      | some w => removeFromGroupOf window st w
    removeLoop window ref n (k + 1) st1

/-- `removeTileGroup(window)`. -/
def removeTileGroup (st : GroupState) (window : Nat) : GroupState :=
  match st.tileGroup window with
  | none => st
  | some ref =>
    let st1 :=
      if st.groupFocusSignalID window ≠ 0 then
        { st with
          focusHandlers := Function.update st.focusHandlers window
            ((st.focusHandlers window).erase (st.groupFocusSignalID window))
          groupFocusSignalID := Function.update st.groupFocusSignalID window 0 }
      else st
    let st2 := removeLoop window ref (st1.array ref).length 0 st1
    { st2 with tileGroup := Function.update st2.tileGroup window none }

/-- The state in which no window has a group or a handler. -/
def GroupState.initial : GroupState :=
  { arrays := [], tileGroup := fun _ => none, groupFocusSignalID := fun _ => 0,
    focusHandlers := fun _ => [], unmanagingHandlers := fun _ => [], nextHandlerId := 1 }

/-- A call of `updateTileGroup` (with a new array) or of `removeTileGroup`. -/
inductive GroupCall where
  | update (group : List Nat)
  | remove (window : Nat)

/-- The state after a call. -/
def GroupCall.run (st : GroupState) : GroupCall → GroupState
  | .update group => updateTileGroupNew st group
  | .remove window => removeTileGroup st window

/-- The state after a sequence of calls. -/
def runCalls (st : GroupState) (calls : List GroupCall) : GroupState :=
  calls.foldl GroupCall.run st

/-- The call regroups whole groups only: the windows of an `update` are distinct
and, with each window that has a group, all members of that group are among them. -/
def GroupCall.Closed (st : GroupState) : GroupCall → Prop
  | .update group => group.Nodup ∧ ∀ w ∈ group, ∀ v ∈ groupOf st w, v ∈ group
  | .remove _ => True

/-- Every call of the sequence regroups whole groups only, in the state in which
it is made. -/
def ClosedCalls : GroupState → List GroupCall → Prop
  | _, [] => True
  | st, c :: cs => c.Closed st ∧ ClosedCalls (c.run st) cs

/-- Invariant of the group state: the array a window holds is allocated, contains
the window, has no repetitions, and is held by every window in it. -/
def GroupInv (st : GroupState) : Prop :=
  ∀ w ref, st.tileGroup w = some ref →
    ref < st.arrays.length ∧ w ∈ st.array ref ∧ (st.array ref).Nodup ∧
      ∀ v ∈ st.array ref, st.tileGroup v = some ref

/-! ### Tiling operations -/

/-- A request made to the window manager. -/
inductive Request where
  | unmaximize (window : Nat) (flags : Nat)
  | maximize (window : Nat) (flags : Nat)
  | raise (window : Nat)
  | moveFrame (window : Nat) (userOp : Bool) (x y : Int)
  | moveResizeFrame (window : Nat) (userOp : Bool) (rect : Rect)
deriving DecidableEq, Repr

/-- What the window manager and the shell answer during one call of a tiling
operation; these values are not determined by `util.js`: the frame rectangle
after an unmaximize, after a move/resize and after a maximize, the ids of the
windows returned by `getOpenWindows()` (top to bottom), whether the compositor is
a Wayland compositor, and the x position that `restoreWindowSize` computes in
floating point from the pointer position for a restore by dragging. -/
structure WMResponse where
  frameAfterUnmaximize : Rect
  frameAfterMoveResize : Rect
  frameAfterMaximize : Rect
  openWindows : List Nat
  isWayland : Bool
  dragPosX : Int

/-- The state the tiling operations work on: the window objects by id (the
fields of `Window`), their capabilities, the group state, the requests made so
far, and whether an exception escaped from an operation. -/
structure TileState where
  window : Nat → Window
  allowsMove : Nat → Bool
  allowsResize : Nat → Bool
  groups : GroupState
  requests : List Request
  faulted : Bool

/-- Replace the object of window `w`. -/
def TileState.setWindow (st : TileState) (w : Nat) (obj : Window) : TileState :=
  { st with window := Function.update st.window w obj }

/-- Add a request to the log. -/
def TileState.request (st : TileState) (r : Request) : TileState :=
  { st with requests := st.requests ++ [r] }

/-- The statements `if (window.get_maximized()) window.unmaximize(window.get_maximized())`
at the start of `tileWindow` and `restoreWindowSize`. -/
def unmaximizeIfMaximized (st : TileState) (resp : WMResponse) (w : Nat) : TileState :=
  if (st.window w).maximized ≠ 0 then
    (st.request (.unmaximize w (st.window w).maximized)).setWindow w
      { st.window w with maximized := 0, frameRect := resp.frameAfterUnmaximize }
  else st

/-- Modelled from the spec: `MyExtension.onWindowTiled` is code of the extension
outside `util.js`; it drives the on-screen overlay, which the spec puts out of
scope, and changes none of the values of the state. -/
def onWindowTiled (st : TileState) (_window : Nat) : TileState := st

/-- `tileWindow(window, newRect, checkToOpenDash = true)`; `newRect` is `none`
when the caller passes `null` or `undefined`.  The animation code changes no
modelled value and is left out.  When `newRect.copy()` faults (no rectangle) or
`getTopTileGroup` faults, the exception escapes: the changes made before it
stay, in the first case the request to raise the window and the assignment of
`isTiled`. -/
def tileWindow (env : Env) (st : TileState) (resp : WMResponse) (window : Option Nat)
    (newRect : Option Rect) (checkToOpenDash : Bool := true) : TileState :=
  match window with
  | none => st
  | some w =>
    let st := unmaximizeIfMaximized st resp w
    if !st.allowsResize w || !st.allowsMove w then st
    else
      let st := st.request (.raise w)
      let oldRect := (st.window w).frameRect
      let st :=
        if (st.window w).isTiled.isNone then
          st.setWindow w { st.window w with isTiled := some oldRect }
        else st
      match newRect with
      | none => { st with faulted := true }
      | some newRect =>
        let st := st.setWindow w { st.window w with tiledRect := some newRect }
        let gap := env.gap
        let rect : Rect :=
          if gap ≠ 0 then
            { x := newRect.x + gap, y := newRect.y + gap, width := newRect.width - 2 * gap,
              height := newRect.height - 2 * gap }
          else newRect
        let st := if resp.isWayland then st.request (.moveFrame w false rect.x rect.y) else st
        let st := (st.request (.moveResizeFrame w false rect)).setWindow w
          { st.window w with frameRect := resp.frameAfterMoveResize }
        match getTopTileGroup env (some (resp.openWindows.map st.window)) false with
        | none => { st with faulted := true }
        | some tileGroup =>
          let st :=
            { st with groups := updateTileGroupNew st.groups (tileGroup.map fun x => x.id) }
          if checkToOpenDash then onWindowTiled st w else st

/-- `maximizeBoth(window)`. -/
def maximizeBoth (st : TileState) (resp : WMResponse) (window : Option Nat) : TileState :=
  match window with
  | none => st
  | some w =>
    if !st.allowsMove w || !st.allowsResize w then st
    else
      let st := { st with groups := removeTileGroup st.groups w }
      let st := st.request (.raise w)
      let workArea := (st.window w).workArea
      let st := st.setWindow w { st.window w with tiledRect := some workArea }
      (st.request (.maximize w MaximizeFlags.BOTH)).setWindow w
        { st.window w with
          maximized := MaximizeFlags.BOTH, frameRect := resp.frameAfterMaximize }

/-- `restoreWindowSize(window, restoreFullPos = false)`. -/
def restoreWindowSize (st : TileState) (resp : WMResponse) (w : Nat)
    (restoreFullPos : Bool := false) : TileState :=
  let st := unmaximizeIfMaximized st resp w
  match (st.window w).isTiled with
  | none => st
  | some oldRect =>
    if !st.allowsResize w || !st.allowsMove w then st
    else
      let st :=
        if restoreFullPos then
          (st.request (.moveResizeFrame w false oldRect)).setWindow w
            { st.window w with frameRect := resp.frameAfterMoveResize }
        else
          let currWindowFrame := (st.window w).frameRect
          let newPosX := resp.dragPosX
          let st := st.request (.moveFrame w true newPosX currWindowFrame.y)
          (st.request (.moveResizeFrame w true
              { x := newPosX, y := currWindowFrame.y, width := oldRect.width,
                height := oldRect.height })).setWindow w
            { st.window w with frameRect := resp.frameAfterMoveResize }
      let st := { st with groups := removeTileGroup st.groups w }
      st.setWindow w { st.window w with isTiled := none, tiledRect := none }

/-- One call `tileWindow(window, newRect, checkToOpenDash)` with a target
rectangle `newRect`, together with the answers of the window manager during it. -/
structure TileCall where
  newRect : Rect
  resp : WMResponse
  checkToOpenDash : Bool

/-- The state after a sequence of `tileWindow` calls on the window `w`. -/
def runTileCalls (env : Env) (st : TileState) (w : Nat) (calls : List TileCall) : TileState :=
  calls.foldl
    (fun s c => tileWindow env s c.resp (some w) (some c.newRect) c.checkToOpenDash) st

/-- Both tiling fields are set or both are unset. -/
def Window.TiledIff (w : Window) : Prop := w.tiledRect.isSome = w.isTiled.isSome

/-! ### Complementary resize -/

/-- The values of `Meta.GrabOp` that `resizeComplementingWindows` distinguishes. -/
inductive GrabOp where
  | RESIZING_N
  | RESIZING_S
  | RESIZING_E
  | RESIZING_W
  | OTHER
deriving DecidableEq, Repr

/-- A neighbour of the resized window: its frame rectangle when it is read and
the rectangle `preGrabRect` saved at the start of the grab. -/
structure Neighbor where
  id : Nat
  frameRect : Rect
  preGrabRect : Rect
deriving DecidableEq, Repr

/-- The resized window: its frame rectangle and the two lists attached to it. -/
structure ResizedWindow where
  frameRect : Rect
  sameSideWindows : List Neighbor
  opposingWindows : List Neighbor

/-- `resizeComplementingWindows(resizedWindow, grabOp, gap)`: the requests made,
in order. -/
def resizeComplementingWindows (resizedWindow : ResizedWindow) (grabOp : GrabOp) (gap : Int) :
    List Request :=
  let resizedRect := resizedWindow.frameRect
  let sameSideWindows := resizedWindow.sameSideWindows
  let opposingWindows := resizedWindow.opposingWindows
  match grabOp with
  | .RESIZING_N =>
    (sameSideWindows.map fun w =>
      let wRect := w.frameRect
      Request.moveResizeFrame w.id false
        { x := wRect.x, y := resizedRect.y, width := wRect.width,
          height := w.preGrabRect.y + w.preGrabRect.height - resizedRect.y }) ++
    (opposingWindows.map fun w =>
      let wRect := w.frameRect
      Request.moveResizeFrame w.id false
        { x := wRect.x, y := wRect.y, width := wRect.width,
          height := resizedRect.y - wRect.y - 2 * gap })
  | .RESIZING_S =>
    (sameSideWindows.map fun w =>
      let wRect := w.frameRect
      Request.moveResizeFrame w.id false
        { x := wRect.x, y := wRect.y, width := wRect.width,
          height := resizedRect.y + resizedRect.height - wRect.y }) ++
    (opposingWindows.map fun w =>
      let wRect := w.frameRect
      let _y := resizedRect.y + resizedRect.height + 2 * gap
      Request.moveResizeFrame w.id false
        { x := wRect.x, y := _y, width := wRect.width,
          height := w.preGrabRect.y + w.preGrabRect.height - _y })
  | .RESIZING_E =>
    (sameSideWindows.map fun w =>
      let wRect := w.frameRect
      Request.moveResizeFrame w.id false
        { x := wRect.x, y := wRect.y, width := resizedRect.x + resizedRect.width - wRect.x,
          height := wRect.height }) ++
    (opposingWindows.map fun w =>
      let wRect := w.frameRect
      let _x := resizedRect.x + resizedRect.width + 2 * gap
      Request.moveResizeFrame w.id false
        { x := _x, y := wRect.y, width := w.preGrabRect.x + w.preGrabRect.width - _x,
          height := wRect.height })
  | .RESIZING_W =>
    (sameSideWindows.map fun w =>
      let wRect := w.frameRect
      Request.moveResizeFrame w.id false
        { x := resizedRect.x, y := wRect.y,
          width := w.preGrabRect.x + w.preGrabRect.width - resizedRect.x,
          height := wRect.height }) ++
    (opposingWindows.map fun w =>
      let wRect := w.frameRect
      Request.moveResizeFrame w.id false
        { x := wRect.x, y := wRect.y, width := resizedRect.x - wRect.x - 2 * gap,
          height := wRect.height })
  | .OTHER => []

/-- The neighbour `w` is requested the frame `rect` by the request `q`. -/
def Requested (w : Neighbor) (rect : Rect) (q : Request) : Prop :=
  q = Request.moveResizeFrame w.id false rect

/-- A sample window that is neither tiled nor maximized. -/
def plainWindow : Window :=
  { id := 7, monitor := 0, frameRect := ⟨100, 100, 800, 600⟩, workArea := ⟨0, 0, 1920, 1080⟩,
    maximized := 0, isTiled := none, tiledRect := none }

/-- A sample state: every window is `plainWindow`, movable and resizable, no
groups, no requests. -/
def sampleTileState : TileState :=
  { window := fun _ => plainWindow, allowsMove := fun _ => true, allowsResize := fun _ => true,
    groups := GroupState.initial, requests := [], faulted := false }

/-- A sample answer of the window manager: requests are honoured for a window
that is alone on the workspace. -/
def sampleResponse : WMResponse :=
  { frameAfterUnmaximize := ⟨100, 100, 800, 600⟩, frameAfterMoveResize := ⟨0, 0, 960, 1080⟩,
    frameAfterMaximize := ⟨0, 0, 1920, 1080⟩, openWindows := [7], isWayland := false,
    dragPosX := 0 }

/-- The part of `tileWindow` from `window.raise()` to the assignment of
`window.isTiled`, for a window that may be moved and resized (used to reason
about `tileWindow`). -/
def tileWindowSaved (st : TileState) (w : Nat) : TileState :=
  let st := st.request (.raise w)
  let oldRect := (st.window w).frameRect
  if (st.window w).isTiled.isNone then
    st.setWindow w { st.window w with isTiled := some oldRect }
  else st

/-- The part of `tileWindow` from `window.raise()` to `move_resize_frame`, for a
window that may be moved and resized and a target rectangle (used to reason
about `tileWindow`). -/
def tileWindowFields (env : Env) (st : TileState) (resp : WMResponse) (w : Nat)
    (newRect : Rect) : TileState :=
  let st := st.request (.raise w)
  let oldRect := (st.window w).frameRect
  let st :=
    if (st.window w).isTiled.isNone then
      st.setWindow w { st.window w with isTiled := some oldRect }
    else st
  let st := st.setWindow w { st.window w with tiledRect := some newRect }
  let gap := env.gap
  let rect : Rect :=
    if gap ≠ 0 then
      { x := newRect.x + gap, y := newRect.y + gap, width := newRect.width - 2 * gap,
        height := newRect.height - 2 * gap }
    else newRect
  let st := if resp.isWayland then st.request (.moveFrame w false rect.x rect.y) else st
  (st.request (.moveResizeFrame w false rect)).setWindow w
    { st.window w with frameRect := resp.frameAfterMoveResize }

/-- The last part of `tileWindow`: the topmost tile group is computed and
installed (used to reason about `tileWindow`). -/
def tileWindowGroup (env : Env) (st : TileState) (resp : WMResponse) (w : Nat)
    (checkToOpenDash : Bool) : TileState :=
  match getTopTileGroup env (some (resp.openWindows.map st.window)) false with
  | none => { st with faulted := true }
  | some tileGroup =>
    let st :=
      { st with groups := updateTileGroupNew st.groups (tileGroup.map fun x => x.id) }
    if checkToOpenDash then onWindowTiled st w else st

/-- The mirror image of a rectangle: x swapped with y and width with height. -/
def Rect.transpose (r : Rect) : Rect :=
  { x := r.y, y := r.x, width := r.height, height := r.width }

/-! ## Rectangle difference -/

theorem areaSum_nil : areaSum [] = 0 := rfl

theorem areaSum_pushIf (acc : List Rect) (c : Bool) (r : Rect) :
    areaSum (pushIf acc c r) = areaSum acc + (if c then r.area else 0) := by
  unfold pushIf areaSum
  cases c <;> simp

theorem mem_pushIf (acc : List Rect) (c : Bool) (s r : Rect) :
    r ∈ pushIf acc c s ↔ r ∈ acc ∨ (c = true ∧ r = s) := by
  unfold pushIf
  cases c <;> simp

/-- With margin 0 a slab of non-negative size contributes its full area, pushed or not. -/
theorem slab_area (w h : Int) (hw : 0 ≤ w) (hh : 0 ≤ h) :
    (if (decide (w > 0) && decide (h > 0)) = true then w * h else 0) = w * h := by
  split_ifs with hc
  · rfl
  · simp only [Bool.and_eq_true, decide_eq_true_eq, not_and_or, not_lt] at hc
    rcases hc with hc | hc
    · have : w = 0 := le_antisymm hc hw
      simp [this]
    · have : h = 0 := le_antisymm hc hh
      simp [this]

theorem slab_area_swap (w h : Int) (hw : 0 ≤ w) (hh : 0 ≤ h) :
    (if (decide (h > 0) && decide (w > 0)) = true then w * h else 0) = w * h := by
  rw [Bool.and_comm]
  exact slab_area w h hw hh

theorem rectDiff_areaSum (env : Env) (A B : Rect) (pv : Bool)
    (hAw : 0 ≤ A.width) (hAh : 0 ≤ A.height) (hBw : 0 ≤ B.width) (hBh : 0 ≤ B.height)
    (hin : B.within A) :
    areaSum (rectDiff env (some A) (some B) 0 (some pv)) = A.area - B.area := by
  obtain ⟨h1, h2, h3, h4⟩ := hin
  have e1 : (if B.x > A.x then B.x else A.x) = B.x := by split_ifs <;> omega
  have e2 : (if B.x + B.width < A.x + A.width then B.x + B.width else A.x + A.width)
      = B.x + B.width := by split_ifs <;> omega
  have e3 : (if B.y > A.y then B.y else A.y) = B.y := by split_ifs <;> omega
  have e4 : (if B.y + B.height < A.y + A.height then B.y + B.height else A.y + A.height)
      = B.y + B.height := by split_ifs <;> omega
  cases pv
  · simp only [rectDiff, Bool.false_eq_true, if_false, areaSum_pushIf, areaSum_nil, e3, e4,
      Rect.area]
    rw [slab_area_swap A.width (B.y - A.y) hAw (by omega),
      slab_area_swap A.width (A.y + A.height - (B.y + B.height)) hAw (by omega),
      slab_area (B.x - A.x) (B.y + B.height - B.y) (by omega) (by omega),
      slab_area (A.x + A.width - (B.x + B.width)) (B.y + B.height - B.y) (by omega) (by omega)]
    ring
  · simp only [rectDiff, if_true, areaSum_pushIf, areaSum_nil, e1, e2, Rect.area]
    rw [slab_area (B.x - A.x) A.height (by omega) hAh,
      slab_area (A.x + A.width - (B.x + B.width)) A.height (by omega) hAh,
      slab_area_swap (B.x + B.width - B.x) (B.y - A.y) (by omega) (by omega),
      slab_area_swap (B.x + B.width - B.x) (A.y + A.height - (B.y + B.height)) (by omega)
        (by omega)]
    ring

/-- The intersection of `A` with a rectangle inside it has the area of that rectangle. -/
theorem intersectArea_of_within (A B : Rect) (hBw : 0 ≤ B.width) (hBh : 0 ≤ B.height)
    (hin : B.within A) : intersectArea A B = B.area := by
  obtain ⟨h1, h2, h3, h4⟩ := hin
  unfold intersectArea Rect.intersect Rect.area
  have m1 : max A.x B.x = B.x := max_eq_right h1
  have m2 : max A.y B.y = B.y := max_eq_right h2
  have m3 : min (A.x + A.width) (B.x + B.width) = B.x + B.width := min_eq_right h3
  have m4 : min (A.y + A.height) (B.y + B.height) = B.y + B.height := min_eq_right h4
  simp only [m1, m2, m3, m4, add_sub_cancel_left]
  by_cases hc : 0 < B.width ∧ 0 < B.height
  · simp [hc]
  · have : B.width * B.height = 0 := by
      rw [not_and_or, not_lt, not_lt] at hc
      rcases hc with hc | hc
      · simp [le_antisymm hc hBw]
      · simp [le_antisymm hc hBh]
    simp [hc, this]

/-- Every rectangle pushed by `rectDiff` passed both margin tests and does not
overlap the subtracted rectangle. -/
theorem rectDiff_mem_bounds (env : Env) (A B : Rect) (m : Int) (pv : Option Bool) (r : Rect)
    (hr : r ∈ rectDiff env (some A) (some B) m pv) :
    (r.width > m ∧ r.height > m) ∧ r.overlap B = false := by
  simp only [rectDiff] at hr
  split_ifs at hr
  all_goals
    simp only [mem_pushIf, List.not_mem_nil, false_or, Bool.and_eq_true, decide_eq_true_eq] at hr
    rcases hr with ((⟨h, rfl⟩ | ⟨h, rfl⟩) | ⟨h, rfl⟩) | ⟨h, rfl⟩ <;>
      refine ⟨by constructor <;> simp only <;> omega, ?_⟩ <;> simp [Rect.overlap]

/-- C1 (area law): for rectangles `A`, `B` of non-negative width and height with
`B` fully inside `A`, and either orientation, the areas of the rectangles of
`rectDiff(A, B, 0, preferVertical)` sum to `area(A) - area(B)`; adding the area
of `intersect(A, B)` (or of the empty rectangle) gives `area(A)`. -/
theorem rectDiff_area_law (env : Env) (A B : Rect) (preferVertical : Bool)
    (hAw : 0 ≤ A.width) (hAh : 0 ≤ A.height) (hBw : 0 ≤ B.width) (hBh : 0 ≤ B.height)
    (hin : B.within A) :
    areaSum (rectDiff env (some A) (some B) 0 (some preferVertical)) = A.area - B.area ∧
    areaSum (rectDiff env (some A) (some B) 0 (some preferVertical)) + intersectArea A B
      = A.area := by
  have h := rectDiff_areaSum env A B preferVertical hAw hAh hBw hBh hin
  refine ⟨h, ?_⟩
  rw [h, intersectArea_of_within A B hBw hBh hin]
  ring

/-- Witness of C1: a 500x300 rectangle inside a 1000x800 one; the difference has
area 800000 - 150000. -/
theorem rectDiff_area_law_witness :
    areaSum (rectDiff sampleEnv (some ⟨0, 0, 1000, 800⟩) (some ⟨100, 50, 500, 300⟩) 0 (some true))
      = Rect.area ⟨0, 0, 1000, 800⟩ - Rect.area ⟨100, 50, 500, 300⟩ ∧
    areaSum (rectDiff sampleEnv (some ⟨0, 0, 1000, 800⟩) (some ⟨100, 50, 500, 300⟩) 0 (some true))
      + intersectArea ⟨0, 0, 1000, 800⟩ ⟨100, 50, 500, 300⟩ = Rect.area ⟨0, 0, 1000, 800⟩ :=
  rectDiff_area_law sampleEnv ⟨0, 0, 1000, 800⟩ ⟨100, 50, 500, 300⟩ true
    (by decide) (by decide) (by decide) (by decide) (by decide)

/-- C2 (the code at a failing input): `A = (0,0,10,10)` and `B = (20,0,10,10)` do
not overlap, yet with margin 0 `rectDiff(A, B)` returns, for both orientations,
the single rectangle `(0,0,20,10)`, which reaches beyond `A`; it is not `[A]`. -/
theorem rectDiff_disjoint_exceeds (env : Env) (preferVertical : Bool) :
    Rect.overlap ⟨0, 0, 10, 10⟩ ⟨20, 0, 10, 10⟩ = false ∧
    rectDiff env (some ⟨0, 0, 10, 10⟩) (some ⟨20, 0, 10, 10⟩) 0 (some preferVertical)
      = [⟨0, 0, 20, 10⟩] ∧
    rectDiff env (some ⟨0, 0, 10, 10⟩) (some ⟨20, 0, 10, 10⟩) 0 (some preferVertical)
      ≠ [⟨0, 0, 10, 10⟩] := by
  have h : rectDiff env (some ⟨0, 0, 10, 10⟩) (some ⟨20, 0, 10, 10⟩) 0 (some preferVertical)
      = [⟨0, 0, 20, 10⟩] := by
    cases preferVertical <;> rfl
  exact ⟨by decide, h, by rw [h]; decide⟩

/-- C3: for every rectangle `A`, every margin `ignoreMargin ≥ 0` (35 included)
and every `preferVertical` (true, false or unset), `rectDiff(A, A)` is empty. -/
theorem rectDiff_self (env : Env) (A : Rect) (ignoreMargin : Int) (hm : 0 ≤ ignoreMargin)
    (preferVertical : Option Bool) :
    rectDiff env (some A) (some A) ignoreMargin preferVertical = [] := by
  have h1 : ¬ (A.x - A.x > ignoreMargin) := by omega
  have h2 : ¬ (A.y - A.y > ignoreMargin) := by omega
  have h3 : ¬ (A.x + A.width - (A.x + A.width) > ignoreMargin) := by omega
  have h4 : ¬ (A.y + A.height - (A.y + A.height) > ignoreMargin) := by omega
  simp only [rectDiff, pushIf, h1, h2, h3, h4, decide_False, Bool.false_and, Bool.false_eq_true,
    if_false, ite_self]

/-- Witness of C3 at the default margin 35 with `preferVertical` unset. -/
theorem rectDiff_self_witness :
    (0 : Int) ≤ 35 ∧ rectDiff sampleEnv (some ⟨0, 0, 1000, 800⟩) (some ⟨0, 0, 1000, 800⟩) = [] :=
  ⟨by decide, rectDiff_self sampleEnv ⟨0, 0, 1000, 800⟩ 35 (by decide) none⟩

/-- C4: for all (possibly absent) rectangles `A` and `B`, every margin and every
`preferVertical`, each rectangle returned by `rectDiff` has width and height
greater than `ignoreMargin`. -/
theorem rectDiff_exceeds_margin (env : Env) (A B : Option Rect) (ignoreMargin : Int)
    (preferVertical : Option Bool) (r : Rect)
    (hr : r ∈ rectDiff env A B ignoreMargin preferVertical) :
    r.width > ignoreMargin ∧ r.height > ignoreMargin := by
  cases A with
  | none => simp [rectDiff] at hr
  | some A =>
    cases B with
    | none => simp [rectDiff] at hr
    | some B => exact (rectDiff_mem_bounds env A B ignoreMargin preferVertical r hr).1

/-- Witness of C4: the left slab of a work area around a window tiled to the right. -/
theorem rectDiff_exceeds_margin_witness :
    (⟨0, 0, 500, 800⟩ : Rect) ∈
        rectDiff sampleEnv (some ⟨0, 0, 1000, 800⟩) (some ⟨500, 0, 500, 800⟩) ∧
      (500 : Int) > 35 ∧ (800 : Int) > 35 :=
  ⟨by decide, rectDiff_exceeds_margin sampleEnv (some ⟨0, 0, 1000, 800⟩) (some ⟨500, 0, 500, 800⟩)
    35 none ⟨0, 0, 500, 800⟩ (by decide)⟩

/-! ## Free screen space -/

theorem intersect_spec (a b : Rect) (h : (a.intersect b).1 = true) :
    (a.intersect b).2.within a ∧ (a.intersect b).2.within b ∧
      0 < (a.intersect b).2.width ∧ 0 < (a.intersect b).2.height := by
  unfold Rect.intersect at h ⊢
  simp only at h ⊢
  split_ifs at h ⊢ with hc
  · simp only [Rect.within]
    obtain ⟨hw, hh⟩ := hc
    refine ⟨⟨le_max_left _ _, le_max_left _ _, ?_, ?_⟩, ⟨le_max_right _ _, le_max_right _ _, ?_, ?_⟩, hw, hh⟩
    · have := min_le_left (a.x + a.width) (b.x + b.width); omega
    · have := min_le_left (a.y + a.height) (b.y + b.height); omega
    · have := min_le_right (a.x + a.width) (b.x + b.width); omega
    · have := min_le_right (a.y + a.height) (b.y + b.height); omega

theorem within_refl (a : Rect) : a.within a := by
  simp [Rect.within]

theorem within_trans {a b c : Rect} (h1 : a.within b) (h2 : b.within c) : a.within c := by
  unfold Rect.within at *
  omega

theorem overlap_false_of_within {r d t : Rect} (h : r.within d) (hd : d.overlap t = false) :
    r.overlap t = false := by
  unfold Rect.within at h
  simp only [Rect.overlap, Bool.not_eq_false', Bool.or_eq_true, decide_eq_true_eq] at hd ⊢
  omega

theorem mem_intersections (gap : Int) (acc single : List Rect) (r : Rect)
    (hr : r ∈ intersections gap acc single) :
    ∃ fr ∈ acc, ∃ d ∈ single, (fr.intersect d).1 = true ∧ r = (fr.intersect d).2 ∧
      r.width > gap ∧ r.height > gap := by
  simp only [intersections, List.mem_flatMap, List.mem_filterMap] at hr
  obtain ⟨d, hd, fr, hfr, hif⟩ := hr
  split_ifs at hif with hc
  simp only [Bool.and_eq_true, decide_eq_true_eq] at hc
  simp only [Option.some.injEq] at hif
  subst hif
  exact ⟨fr, hfr, d, hd, hc.1.1, rfl, hc.1.2, hc.2⟩

theorem foldl_intersections_mem (env : Env) (wa : Rect) (ws : List Window) :
    ∀ (acc : List Rect) (r : Rect),
      r ∈ (ws.map fun w => rectDiff env (some wa) w.tiledRect).foldl (intersections env.gap) acc →
      (∃ a ∈ acc, r.within a) ∧
      (∀ w ∈ ws, ∀ t, w.tiledRect = some t → r.overlap t = false) ∧
      (r ∈ acc ∨ (0 < r.width ∧ 0 < r.height)) := by
  induction ws with
  | nil =>
    intro acc r hr
    simp only [List.map_nil, List.foldl_nil] at hr
    exact ⟨⟨r, hr, within_refl r⟩, by simp, Or.inl hr⟩
  | cons w ws ih =>
    intro acc r hr
    simp only [List.map_cons, List.foldl_cons] at hr
    obtain ⟨⟨a, ha, hra⟩, hno, hpos⟩ := ih _ r hr
    obtain ⟨fr, hfr, d, hd, hi, rfl, -, -⟩ := mem_intersections _ _ _ _ ha
    obtain ⟨hwfr, hwd, hw, hh⟩ := intersect_spec fr d hi
    refine ⟨⟨fr, hfr, within_trans hra hwfr⟩, ?_, Or.inr ?_⟩
    · intro w1 hw1 t ht
      rcases List.mem_cons.mp hw1 with rfl | hw1
      · rw [ht] at hd
        exact overlap_false_of_within (within_trans hra hwd) (rectDiff_mem_bounds env wa t _ _ d hd).2
      · exact hno w1 hw1 t ht
    · rcases hpos with hmem | hpos
      · obtain ⟨fr1, -, d1, -, hi1, rfl, -, -⟩ := mem_intersections _ _ _ _ hmem
        exact (intersect_spec fr1 d1 hi1).2.2
      · exact hpos

/-- C5: for every non-empty tile group whose tiled rectangles together cover the
work area (as do the rectangles of an exact partition of it), and every gap,
`getFreeScreenRects` returns the empty list.  Coverage alone is used; that the
rectangles have positive area, lie within the work area and do not overlap is
not needed. -/
theorem getFreeScreenRects_partition (env : Env) (tileGroup : List Window)
    (hne : tileGroup ≠ [])
    (hcover : CoversWorkArea (entireWorkArea env tileGroup) tileGroup) :
    getFreeScreenRects env tileGroup = [] := by
  rw [List.eq_nil_iff_forall_not_mem]
  intro r hr
  obtain ⟨⟨a, ha, hra⟩, hno, -⟩ := foldl_intersections_mem env _ tileGroup _ r hr
  rw [List.mem_singleton] at ha
  subst ha
  have hp : 0 < r.width ∧ 0 < r.height := by
    cases tileGroup with
    | nil => exact absurd rfl hne
    | cons w ws =>
      simp only [getFreeScreenRects, List.map_cons, List.foldl_cons] at hr
      obtain ⟨-, -, hpos1⟩ := foldl_intersections_mem env _ ws _ r hr
      rcases hpos1 with hmem | h
      · obtain ⟨fr1, -, d1, -, hi1, rfl, -, -⟩ := mem_intersections _ _ _ _ hmem
        exact (intersect_spec fr1 d1 hi1).2.2
      · exact h
  unfold Rect.within at hra
  obtain ⟨w, hw, t, ht, hc⟩ := hcover r.x r.y (by unfold Rect.coversCell; omega)
  have := hno w hw t ht
  unfold Rect.coversCell at hc
  simp only [Rect.overlap, Bool.not_eq_false', Bool.or_eq_true, decide_eq_true_eq] at this
  omega

/-- Witness of C5: the left and the right half exactly tile the sample work area. -/
theorem getFreeScreenRects_partition_witness :
    CoversWorkArea (entireWorkArea sampleEnv [tiledA, tiledB]) [tiledA, tiledB] ∧
      getFreeScreenRects sampleEnv [tiledA, tiledB] = [] := by
  have hcover : CoversWorkArea (entireWorkArea sampleEnv [tiledA, tiledB]) [tiledA, tiledB] := by
    intro px py h
    simp only [Rect.coversCell, entireWorkArea, tiledA] at h
    by_cases hx : px < 960
    · exact ⟨tiledA, by simp, ⟨0, 0, 960, 1080⟩, rfl, by simp only [Rect.coversCell]; omega⟩
    · exact ⟨tiledB, by simp, ⟨960, 0, 960, 1080⟩, rfl, by simp only [Rect.coversCell]; omega⟩
  exact ⟨hcover, getFreeScreenRects_partition sampleEnv [tiledA, tiledB] (by simp) hcover⟩

/-- C6: for every tile group, work area and gap, each rectangle returned by
`getFreeScreenRects` lies within the work area and overlaps the `tiledRect` of no
window of the group. -/
theorem getFreeScreenRects_free (env : Env) (tileGroup : List Window) (r : Rect)
    (hr : r ∈ getFreeScreenRects env tileGroup) :
    r.within (entireWorkArea env tileGroup) ∧
      ∀ w ∈ tileGroup, ∀ t, w.tiledRect = some t → r.overlap t = false := by
  obtain ⟨⟨a, ha, hra⟩, hno, -⟩ := foldl_intersections_mem env _ tileGroup _ r hr
  rw [List.mem_singleton] at ha
  subst ha
  exact ⟨hra, hno⟩

/-- Witness of C6: with only the left half tiled, the right half is free. -/
theorem getFreeScreenRects_free_witness :
    (⟨960, 0, 960, 1080⟩ : Rect) ∈ getFreeScreenRects sampleEnv [tiledA] ∧
      Rect.within ⟨960, 0, 960, 1080⟩ (entireWorkArea sampleEnv [tiledA]) ∧
      ∀ w ∈ [tiledA], ∀ t, w.tiledRect = some t →
        Rect.overlap ⟨960, 0, 960, 1080⟩ t = false :=
  ⟨by decide, getFreeScreenRects_free sampleEnv [tiledA] ⟨960, 0, 960, 1080⟩ (by decide)⟩

/-! ## Topmost tile group -/

theorem equal_iff (a b : Rect) : a.equal b = true ↔ a = b := by
  cases a; cases b
  simp [Rect.equal, and_assoc]

theorem overlapsGrouped_false (gs : List Window) (t : Rect)
    (h : overlapsGrouped gs t = some false) :
    ∀ g ∈ gs, ∃ r, g.tiledRect = some r ∧ r.overlap t = false := by
  induction gs with
  | nil => simp
  | cons g gs ih =>
    unfold overlapsGrouped at h
    split at h
    · simp at h
    · rename_i gR hg
      split_ifs at h with ho
      · simp at h
      · intro g1 hg1
        rcases List.mem_cons.mp hg1 with rfl | hg1
        · exact ⟨gR, hg, by simpa using ho⟩
        · exact ih h g1 hg1

theorem scanWindows_spec (cm : Int) :
    ∀ (l : List Window) (st : ScanState) (res : List Window),
      scanWindows cm l st = some res →
      ∃ ext, res = st.groupedWindows ++ ext ∧ ext.Sublist l ∧
        (∀ w ∈ ext, w.monitor = cm ∧ w.isTiled.isSome = true ∧ w.tiledRect.isSome = true) ∧
        (st.groupedWindows.Pairwise NoOverlap → res.Pairwise NoOverlap) := by
  intro l
  induction l with
  | nil =>
    intro st res h
    simp only [scanWindows, Option.some.injEq] at h
    subst h
    exact ⟨[], by simp, List.Sublist.refl _, by simp, id⟩
  | cons w rest ih =>
    intro st res h
    have skip : ∀ st1 : ScanState, scanWindows cm rest st1 = some res →
        st1.groupedWindows = st.groupedWindows →
        ∃ ext, res = st.groupedWindows ++ ext ∧ ext.Sublist (w :: rest) ∧
        (∀ w ∈ ext, w.monitor = cm ∧ w.isTiled.isSome = true ∧ w.tiledRect.isSome = true) ∧
        (st.groupedWindows.Pairwise NoOverlap → res.Pairwise NoOverlap) := by
      intro st1 h1 hg
      obtain ⟨ext, he, hs, hp, hq⟩ := ih st1 res h1
      rw [hg] at he hq
      exact ⟨ext, he, hs.cons w, hp, hq⟩
    have stop : some st.groupedWindows = some res →
        ∃ ext, res = st.groupedWindows ++ ext ∧ ext.Sublist (w :: rest) ∧
        (∀ w ∈ ext, w.monitor = cm ∧ w.isTiled.isSome = true ∧ w.tiledRect.isSome = true) ∧
        (st.groupedWindows.Pairwise NoOverlap → res.Pairwise NoOverlap) := by
      intro h1
      simp only [Option.some.injEq] at h1
      subst h1
      exact ⟨[], by simp, List.nil_sublist _, by simp, id⟩
    unfold scanWindows at h
    split_ifs at h with hm ht hmax
    · exact skip _ h rfl
    · exact stop h
    · simp only at h
      split at h
      · simp at h
      · rename_i wRect hw
        split_ifs at h with he ha
        · exact stop h
        · exact stop h
        · split at h
          · simp at h
          · exact skip _ h rfl
          · split at h
            · simp at h
            · exact skip _ h rfl
            · rename_i hng hg
              obtain ⟨ext, he1, hs, hp, hq⟩ := ih _ res h
              simp only [List.append_assoc, List.singleton_append] at he1
              refine ⟨w :: ext, he1, hs.cons₂ w, ?_, ?_⟩
              · intro w1 hw1
                rcases List.mem_cons.mp hw1 with rfl | hw1
                · refine ⟨by simpa using hm, ht, by simp [hw]⟩
                · exact hp w1 hw1
              · intro hpw
                apply hq
                simp only
                rw [List.pairwise_append]
                refine ⟨hpw, List.pairwise_singleton _ _, ?_⟩
                intro g hgm w1 hw1
                rw [List.mem_singleton] at hw1
                subst hw1
                intro ra rb hra hrb
                obtain ⟨r, hr, hro⟩ := overlapsGrouped_false _ _ hg g hgm
                rw [hw] at hrb
                rw [hra] at hr
                simp only [Option.some.injEq] at hrb hr
                subst hrb hr
                exact hro
    · exact skip _ h rfl

theorem scanWindows_break (cm : Int) (w : Window) (post : List Window)
    (hm : w.monitor = cm) (ht : w.isTiled.isSome = true)
    (hb : w.maximized = MaximizeFlags.BOTH ∨ w.tiledRect = some w.workArea) :
    ∀ (pre : List Window) (st : ScanState),
      scanWindows cm (pre ++ w :: post) st = scanWindows cm pre st := by
  intro pre
  induction pre with
  | nil =>
    intro st
    simp only [List.nil_append]
    unfold scanWindows
    simp only [hm, bne_self_eq_false, Bool.false_eq_true, if_false, ht, if_true]
    rcases hb with hb | hb
    · simp [hb]
    · simp [hb, (equal_iff w.workArea w.workArea).mpr rfl]
  | cons p pre ih =>
    intro st
    simp only [List.cons_append]
    unfold scanWindows
    simp only [ih]

theorem card_cells (r : Rect) (hw : 0 ≤ r.width) (hh : 0 ≤ r.height) :
    ((cells r).card : Int) = r.area := by
  unfold cells Rect.area
  rw [Finset.card_product, Int.card_Ico, Int.card_Ico]
  push_cast
  rw [Int.toNat_of_nonneg (by omega), Int.toNat_of_nonneg (by omega)]
  ring

theorem cells_subset {r a : Rect} (h : r.within a) : cells r ⊆ cells a := by
  intro p hp
  unfold Rect.within at h
  simp only [cells, Finset.mem_product, Finset.mem_Ico] at hp ⊢
  omega

theorem cells_disjoint {r s : Rect} (h : r.overlap s = false) : Disjoint (cells r) (cells s) := by
  rw [Finset.disjoint_left]
  intro p hp hq
  simp only [cells, Finset.mem_product, Finset.mem_Ico] at hp hq
  simp only [Rect.overlap, Bool.not_eq_false', Bool.or_eq_true, decide_eq_true_eq] at h
  omega

theorem areaSum_cons (r : Rect) (rs : List Rect) : areaSum (r :: rs) = r.area + areaSum rs := by
  simp [areaSum]

theorem areaSum_append (rs ss : List Rect) : areaSum (rs ++ ss) = areaSum rs + areaSum ss := by
  simp [areaSum]

theorem areaSum_cells (wa : Rect) (rs : List Rect)
    (hpos : ∀ r ∈ rs, 0 ≤ r.width ∧ 0 ≤ r.height) (hin : ∀ r ∈ rs, r.within wa)
    (hpw : rs.Pairwise fun a b => a.overlap b = false) :
    ∃ S : Finset (Int × Int), S ⊆ cells wa ∧ (S.card : Int) = areaSum rs ∧
      ∀ p ∈ S, ∃ r ∈ rs, p ∈ cells r := by
  induction rs with
  | nil => exact ⟨∅, by simp, by simp [areaSum], by simp⟩
  | cons r rs ih =>
    rw [List.pairwise_cons] at hpw
    obtain ⟨S, hS, hc, hm⟩ := ih (fun x hx => hpos x (List.mem_cons_of_mem _ hx))
      (fun x hx => hin x (List.mem_cons_of_mem _ hx)) hpw.2
    have hd : Disjoint (cells r) S := by
      rw [Finset.disjoint_left]
      intro p hp hq
      obtain ⟨s, hs, hps⟩ := hm p hq
      exact Finset.disjoint_left.mp (cells_disjoint (hpw.1 s hs)) hp hps
    refine ⟨cells r ∪ S, Finset.union_subset (cells_subset (hin r (List.mem_cons_self _ _))) hS,
      ?_, ?_⟩
    · rw [Finset.card_union_of_disjoint hd, areaSum_cons]
      push_cast
      rw [hc, card_cells r (hpos r (List.mem_cons_self _ _)).1 (hpos r (List.mem_cons_self _ _)).2]
    · intro p hp
      rcases Finset.mem_union.mp hp with hp | hp
      · exact ⟨r, List.mem_cons_self _ _, hp⟩
      · obtain ⟨s, hs, hps⟩ := hm p hp
        exact ⟨s, List.mem_cons_of_mem _ hs, hps⟩

theorem areaSum_le (wa : Rect) (hw : 0 ≤ wa.width) (hh : 0 ≤ wa.height) (rs : List Rect)
    (hpos : ∀ r ∈ rs, 0 ≤ r.width ∧ 0 ≤ r.height) (hin : ∀ r ∈ rs, r.within wa)
    (hpw : rs.Pairwise fun a b => a.overlap b = false) :
    areaSum rs ≤ wa.area := by
  obtain ⟨S, hS, hc, -⟩ := areaSum_cells wa rs hpos hin hpw
  rw [← hc, ← card_cells wa hw hh]
  exact_mod_cast Finset.card_le_card hS

theorem overlapsGrouped_of_forall (gs : List Window) (t : Rect)
    (h : ∀ g ∈ gs, ∃ r, g.tiledRect = some r ∧ r.overlap t = false) :
    overlapsGrouped gs t = some false := by
  induction gs with
  | nil => rfl
  | cons g gs ih =>
    obtain ⟨r, hr, ho⟩ := h g (List.mem_cons_self _ _)
    unfold overlapsGrouped
    simp only [hr, ho, Bool.false_eq_true, if_false]
    exact ih fun g1 hg1 => h g1 (List.mem_cons_of_mem _ hg1)

theorem tiledRects_append (P Q : List Window) :
    tiledRects (P ++ Q) = tiledRects P ++ tiledRects Q := by
  simp [tiledRects]

theorem areaSum_tiledRects_le (cm : Int) (wa : Rect) (hw : 0 ≤ wa.width) (hh : 0 ≤ wa.height)
    (ws : List Window) (hgood : ∀ w ∈ ws, ProperTile cm wa w) (hpw : ws.Pairwise NoOverlap) :
    areaSum (tiledRects ws) ≤ wa.area := by
  apply areaSum_le wa hw hh
  · intro r hr
    simp only [tiledRects, List.mem_filterMap] at hr
    obtain ⟨w, hwm, hwr⟩ := hr
    obtain ⟨-, -, -, -, t, ht, h1, h2, -, -⟩ := hgood w hwm
    rw [ht] at hwr
    simp only [Option.some.injEq] at hwr
    subst hwr
    omega
  · intro r hr
    simp only [tiledRects, List.mem_filterMap] at hr
    obtain ⟨w, hwm, hwr⟩ := hr
    obtain ⟨-, -, -, -, t, ht, -, -, h3, -⟩ := hgood w hwm
    rw [ht] at hwr
    simp only [Option.some.injEq] at hwr
    subst hwr
    exact h3
  · unfold tiledRects
    rw [List.pairwise_filterMap]
    exact hpw.imp fun {a b} hab ra hra rb hrb => hab ra rb hra hrb

theorem scanWindows_all (cm : Int) (wa : Rect) :
    ∀ (rest P : List Window), (∀ w ∈ P ++ rest, ProperTile cm wa w) →
      (P ++ rest).Pairwise NoOverlap →
      scanWindows cm rest
        { groupedWindows := P, notGroupedWindows := [], groupedWindowsArea := areaSum (tiledRects P) }
        = some (P ++ rest) := by
  intro rest
  induction rest with
  | nil =>
    intro P _ _
    simp [scanWindows]
  | cons w rest ih =>
    intro P hgood hpw
    have hassoc : P ++ w :: rest = (P ++ [w]) ++ rest := by simp
    obtain ⟨hm, ht, hmax, hwa, t, hrect, htw, hth, htin, htne⟩ := hgood w (by simp)
    have hgoodP : ∀ x ∈ P ++ [w], ProperTile cm wa x := by
      intro x hx
      apply hgood x
      rw [hassoc]
      exact List.mem_append_left _ hx
    have hpwP : (P ++ [w]).Pairwise NoOverlap := by
      rw [hassoc] at hpw
      exact (List.pairwise_append.mp hpw).1
    have hwpos : 0 ≤ wa.width ∧ 0 ≤ wa.height := by
      unfold Rect.within at htin
      omega
    have hle := areaSum_tiledRects_le cm wa hwpos.1 hwpos.2 (P ++ [w]) hgoodP hpwP
    have htr : tiledRects (P ++ [w]) = tiledRects P ++ [t] := by
      simp [tiledRects, hrect]
    rw [htr, areaSum_append, areaSum_cons, areaSum_nil] at hle
    have hta : 0 < t.area := mul_pos htw hth
    have harea : ¬ (areaSum (tiledRects P) ≥ w.workArea.area) := by
      rw [hwa]
      omega
    have hne : t.equal w.workArea = false := by
      rw [hwa, Bool.eq_false_iff]
      intro h
      exact htne ((equal_iff t wa).mp h)
    have hog : overlapsGrouped P t = some false := by
      apply overlapsGrouped_of_forall
      intro g hg
      obtain ⟨-, -, -, -, tg, hrg, -⟩ := hgood g (List.mem_append_left _ hg)
      refine ⟨tg, hrg, ?_⟩
      exact (List.pairwise_append.mp hpwP).2.2 g hg w (List.mem_singleton_self _) tg t hrg hrect
    have hmax1 : (w.maximized == MaximizeFlags.BOTH) = false := by
      simpa using hmax
    unfold scanWindows
    simp only [hm, bne_self_eq_false, Bool.false_eq_true, if_false, ht, if_true, hmax1, hrect, hne,
      harea, overlapsNotGrouped, hog]
    have := ih (P ++ [w]) (by rw [← hassoc]; exact hgood) (by rw [← hassoc]; exact hpw)
    rw [htr, areaSum_append, areaSum_cons, areaSum_nil, add_zero, ← hassoc] at this
    exact this


theorem overlapsNotGrouped_returns (ns : List Window) (t : Rect)
    (h : ∀ n ∈ ns, n.WellFormed) : ∃ b, overlapsNotGrouped ns t = some b := by
  induction ns with
  | nil => exact ⟨false, rfl⟩
  | cons n ns ih =>
    have hn := h n (List.mem_cons_self _ _)
    obtain ⟨b, hb⟩ := ih fun x hx => h x (List.mem_cons_of_mem _ hx)
    unfold overlapsNotGrouped
    by_cases ht : n.isTiled.isSome = true
    · obtain ⟨r, hr⟩ := Option.isSome_iff_exists.mp (hn ht)
      simp only [ht, if_true, hr]
      split_ifs
      · exact ⟨true, rfl⟩
      · exact ⟨b, hb⟩
    · simp only [ht, Bool.false_eq_true, if_false]
      split_ifs
      · exact ⟨true, rfl⟩
      · exact ⟨b, hb⟩

theorem overlapsGrouped_returns (gs : List Window) (t : Rect)
    (h : ∀ g ∈ gs, g.tiledRect.isSome = true) : ∃ b, overlapsGrouped gs t = some b := by
  induction gs with
  | nil => exact ⟨false, rfl⟩
  | cons g gs ih =>
    obtain ⟨r, hr⟩ := Option.isSome_iff_exists.mp (h g (List.mem_cons_self _ _))
    obtain ⟨b, hb⟩ := ih fun x hx => h x (List.mem_cons_of_mem _ hx)
    unfold overlapsGrouped
    simp only [hr]
    split_ifs
    · exact ⟨true, rfl⟩
    · exact ⟨b, hb⟩

theorem scanWindows_returns (cm : Int) :
    ∀ (l : List Window) (st : ScanState), (∀ w ∈ l, w.WellFormed) →
      (∀ n ∈ st.notGroupedWindows, n.WellFormed) →
      (∀ g ∈ st.groupedWindows, g.tiledRect.isSome = true) →
      ∃ res, scanWindows cm l st = some res := by
  intro l
  induction l with
  | nil =>
    intro st _ _ _
    exact ⟨st.groupedWindows, rfl⟩
  | cons w rest ih =>
    intro st hl hn hg
    have hw := hl w (List.mem_cons_self _ _)
    have hrest : ∀ x ∈ rest, x.WellFormed := fun x hx => hl x (List.mem_cons_of_mem _ hx)
    have hn1 : ∀ n ∈ st.notGroupedWindows ++ [w], n.WellFormed := by
      intro n hnm
      rcases List.mem_append.mp hnm with h | h
      · exact hn n h
      · rw [List.mem_singleton] at h
        subst h
        exact hw
    unfold scanWindows
    split_ifs with hm ht hmax
    · exact ih st hrest hn hg
    · exact ⟨_, rfl⟩
    · obtain ⟨wRect, hr⟩ := Option.isSome_iff_exists.mp (hw ht)
      simp only [hr]
      split_ifs
      · exact ⟨_, rfl⟩
      · exact ⟨_, rfl⟩
      · obtain ⟨b1, hb1⟩ := overlapsNotGrouped_returns st.notGroupedWindows wRect hn
        obtain ⟨b2, hb2⟩ := overlapsGrouped_returns st.groupedWindows wRect hg
        rw [hb1]
        cases b1
        · simp only
          rw [hb2]
          cases b2
          · simp only
            refine ih { st with
              groupedWindows := st.groupedWindows ++ [w]
              groupedWindowsArea := st.groupedWindowsArea + wRect.area } hrest hn ?_
            intro g hgm
            rcases List.mem_append.mp hgm with h | h
            · exact hg g h
            · rw [List.mem_singleton] at h
              subst h
              simp [hr]
          · simp only
            exact ih { st with notGroupedWindows := st.notGroupedWindows ++ [w] } hrest hn1 hg
        · simp only
          exact ih st hrest hn hg
    · exact ih { st with notGroupedWindows := st.notGroupedWindows ++ [w] } hrest hn1 hg

theorem getTopTileGroup_returns (env : Env) (openWindows : List Window) (ignoreTop : Bool)
    (hwf : ∀ w ∈ openWindows, w.WellFormed) (hne : ignoreTop = false → openWindows ≠ []) :
    ∃ res, getTopTileGroup env (some openWindows) ignoreTop = some res := by
  unfold getTopTileGroup
  have hs : ∀ w ∈ scannedWindows openWindows ignoreTop, w.WellFormed := by
    intro w hw
    unfold scannedWindows at hw
    split_ifs at hw
    · exact hwf w (List.mem_of_mem_drop hw)
    · exact hwf w hw
  cases ignoreTop with
  | true =>
    simp only [currMonitor, if_true]
    exact scanWindows_returns _ _ _ hs (by simp) (by simp)
  | false =>
    cases openWindows with
    | nil => exact absurd rfl (hne rfl)
    | cons top rest =>
      simp only [currMonitor, Bool.false_eq_true, if_false]
      exact scanWindows_returns _ _ _ hs (by simp) (by simp)

theorem scannedWindows_append (above below : List Window) (w : Window) (ignoreTop : Bool)
    (hidx : ignoreTop = true → above ≠ []) :
    scannedWindows (above ++ w :: below) ignoreTop
      = scannedWindows above ignoreTop ++ w :: below := by
  cases ignoreTop with
  | false => rfl
  | true =>
    cases above with
    | nil => exact absurd rfl (hidx rfl)
    | cons a as => rfl

theorem scannedWindows_sublist (ws : List Window) (ignoreTop : Bool) :
    (scannedWindows ws ignoreTop).Sublist ws := by
  unfold scannedWindows
  split_ifs
  · exact List.drop_sublist 1 ws
  · exact List.Sublist.refl ws

/-- C7: with `ignoreTopWindow = true`, if every window below index 0 is on the
reference monitor, tiled, not fully maximized, and its tiled rectangle has
positive width and height, lies within the (common) work area and is not equal to
it, and these rectangles do not overlap pairwise, then `getTopTileGroup` returns
exactly the windows at indices 1.. in their stacking order. -/
theorem getTopTileGroup_all_below (env : Env) (stack : List Window) (wa : Rect)
    (hgood : ∀ w ∈ stack.drop 1, ProperTile env.currentMonitor wa w)
    (hpw : (stack.drop 1).Pairwise NoOverlap) :
    getTopTileGroup env (some stack) true = some (stack.drop 1) := by
  have := scanWindows_all env.currentMonitor wa (stack.drop 1) [] (by simpa using hgood)
    (by simpa using hpw)
  simpa [getTopTileGroup, currMonitor, scannedWindows, tiledRects, areaSum] using this

/-- Witness of C7: the stack `[floatingTop, tiledA (left half), tiledB (right
half)]` gives `[tiledA, tiledB]`. -/
theorem getTopTileGroup_all_below_witness :
    (∀ w ∈ [floatingTop, tiledA, tiledB].drop 1,
      ProperTile sampleEnv.currentMonitor ⟨0, 0, 1920, 1080⟩ w) ∧
    ([floatingTop, tiledA, tiledB].drop 1).Pairwise NoOverlap ∧
    getTopTileGroup sampleEnv (some [floatingTop, tiledA, tiledB]) true
      = some [tiledA, tiledB] := by
  have hgood : ∀ w ∈ [floatingTop, tiledA, tiledB].drop 1,
      ProperTile sampleEnv.currentMonitor ⟨0, 0, 1920, 1080⟩ w := by
    intro w hw
    simp only [List.drop_succ_cons, List.drop_zero, List.mem_cons, List.mem_singleton,
      List.not_mem_nil, or_false] at hw
    rcases hw with rfl | rfl
    · exact ⟨rfl, rfl, by decide, rfl, ⟨0, 0, 960, 1080⟩, rfl, by decide, by decide, by decide,
        by decide⟩
    · exact ⟨rfl, rfl, by decide, rfl, ⟨960, 0, 960, 1080⟩, rfl, by decide, by decide, by decide,
        by decide⟩
  have hpw : ([floatingTop, tiledA, tiledB].drop 1).Pairwise NoOverlap := by
    simp only [List.drop_succ_cons, List.drop_zero, List.pairwise_cons, List.mem_singleton,
      List.not_mem_nil, forall_eq, false_implies, implies_true, List.Pairwise.nil, and_true]
    intro ra rb ha hb
    simp only [tiledA, tiledB, Option.some.injEq] at ha hb
    subst ha hb
    decide
  exact ⟨hgood, hpw, getTopTileGroup_all_below sampleEnv [floatingTop, tiledA, tiledB]
    ⟨0, 0, 1920, 1080⟩ hgood hpw⟩

/-- C8: let `w` be a scanned window (not at index 0 when the topmost window is
ignored) on the reference monitor `cm` that is tiled and is fully maximized or
has `tiledRect` equal to its work area.  Then the result of `getTopTileGroup` is
the result of scanning only the windows above `w`; every returned list is a
sublist of the scanned windows above `w`, so in a stack without repetitions
neither `w` nor a window below it is returned; and when no window is scanned
before `w` the result is the empty list. -/
theorem getTopTileGroup_stops (env : Env) (ignoreTop : Bool) (above below : List Window)
    (w : Window) (cm : Int)
    (hcm : currMonitor env (above ++ w :: below) ignoreTop = some cm)
    (hidx : ignoreTop = true → above ≠ [])
    (hmon : w.monitor = cm) (ht : w.isTiled.isSome = true)
    (hb : w.maximized = MaximizeFlags.BOTH ∨ w.tiledRect = some w.workArea) :
    getTopTileGroup env (some (above ++ w :: below)) ignoreTop
        = scanWindows cm (scannedWindows above ignoreTop)
            { groupedWindows := [], notGroupedWindows := [], groupedWindowsArea := 0 } ∧
    (∀ res, getTopTileGroup env (some (above ++ w :: below)) ignoreTop = some res →
        res.Sublist (scannedWindows above ignoreTop) ∧
        ((above ++ w :: below).Nodup → w ∉ res ∧ ∀ x ∈ below, x ∉ res)) ∧
    (scannedWindows above ignoreTop = [] →
        getTopTileGroup env (some (above ++ w :: below)) ignoreTop = some []) := by
  have heq : getTopTileGroup env (some (above ++ w :: below)) ignoreTop
        = scanWindows cm (scannedWindows above ignoreTop)
            { groupedWindows := [], notGroupedWindows := [], groupedWindowsArea := 0 } := by
    simp only [getTopTileGroup, hcm, scannedWindows_append above below w ignoreTop hidx]
    exact scanWindows_break cm w below hmon ht hb _ _
  refine ⟨heq, ?_, ?_⟩
  · intro res hres
    rw [heq] at hres
    obtain ⟨ext, he, hs, -, -⟩ := scanWindows_spec cm _ _ res hres
    simp only [List.nil_append] at he
    subst he
    refine ⟨hs, ?_⟩
    intro hnd
    have hsub : ∀ x ∈ res, x ∈ above := fun x hx =>
      (scannedWindows_sublist above ignoreTop).subset (hs.subset hx)
    have hdis := (List.nodup_append.mp hnd).2.2
    refine ⟨fun hw => hdis (hsub w hw) (List.mem_cons_self _ _), ?_⟩
    intro x hx hxr
    exact hdis (hsub x hxr) (List.mem_cons_of_mem _ hx)
  · intro hnil
    rw [heq, hnil]
    rfl

/-- Witness of C8: a fully maximized window directly above `tiledA` in the stack
`[floatingTop, maximizedWindow, tiledA, tiledB]`; the result is empty. -/
theorem getTopTileGroup_stops_witness :
    getTopTileGroup sampleEnv (some ([floatingTop] ++ maximizedWindow :: [tiledA, tiledB])) true
        = scanWindows 0 (scannedWindows [floatingTop] true)
            { groupedWindows := [], notGroupedWindows := [], groupedWindowsArea := 0 } ∧
    (∀ res, getTopTileGroup sampleEnv
          (some ([floatingTop] ++ maximizedWindow :: [tiledA, tiledB])) true = some res →
        res.Sublist (scannedWindows [floatingTop] true) ∧
        (([floatingTop] ++ maximizedWindow :: [tiledA, tiledB]).Nodup →
          maximizedWindow ∉ res ∧ ∀ x ∈ [tiledA, tiledB], x ∉ res)) ∧
    (scannedWindows [floatingTop] true = [] →
        getTopTileGroup sampleEnv
          (some ([floatingTop] ++ maximizedWindow :: [tiledA, tiledB])) true = some []) :=
  getTopTileGroup_stops sampleEnv true [floatingTop] [tiledA, tiledB] maximizedWindow 0
    rfl (by simp) rfl rfl (Or.inl rfl)

/-- C9 (the code at a failing input): `tiledA` is tiled, on the reference
monitor and stacked above `wideRight`, and their tiled rectangles overlap; yet
`wideRight` is returned.  `tiledA` is overlapped by the floating window above it
and is therefore put in neither list, so the windows below it are never tested
against it. -/
theorem getTopTileGroup_keeps_occluded_tile :
    getTopTileGroup sampleEnv (some [floatingTop, tiledA, wideRight]) false = some [wideRight] ∧
    getTopTileGroup sampleEnv (some [tiledB, floatingTop, tiledA, wideRight]) true
      = some [wideRight] ∧
    tiledA.isTiled.isSome = true ∧ tiledA.monitor = wideRight.monitor ∧
    (∃ ra rb, tiledA.tiledRect = some ra ∧ wideRight.tiledRect = some rb ∧
      ra.overlap rb = true) :=
  ⟨by decide, by decide, rfl, rfl, ⟨0, 0, 960, 1080⟩, ⟨900, 0, 1020, 1080⟩, rfl, rfl, by decide⟩

/-- C10: whenever `getTopTileGroup` returns a list, the tiled rectangles of the
returned windows do not overlap pairwise, every returned window is tiled (has
`isTiled` and `tiledRect`) and is on the reference monitor, and the returned
windows are a sublist of the input stack, i.e. in the same relative order.
(`getTopTileGroup_returns` shows that a list is returned for every stack of
well-formed windows, non-empty when the topmost window is not ignored.) -/
theorem getTopTileGroup_group (env : Env) (openWindows : List Window) (ignoreTop : Bool)
    (res : List Window)
    (h : getTopTileGroup env (some openWindows) ignoreTop = some res) :
    res.Pairwise NoOverlap ∧
    (∀ w ∈ res, w.isTiled.isSome = true ∧ w.tiledRect.isSome = true ∧
      currMonitor env openWindows ignoreTop = some w.monitor) ∧
    res.Sublist openWindows := by
  simp only [getTopTileGroup] at h
  split at h
  · simp at h
  · rename_i cm hcm
    obtain ⟨ext, he, hs, hp, hq⟩ := scanWindows_spec cm _ _ res h
    simp only [List.nil_append] at he
    subst he
    refine ⟨hq List.Pairwise.nil, ?_, hs.trans (scannedWindows_sublist _ _)⟩
    intro w hw
    obtain ⟨h1, h2, h3⟩ := hp w hw
    exact ⟨h2, h3, by rw [hcm, h1]⟩

/-- Witness of C10: a floating window between the two halves, nothing ignored. -/
theorem getTopTileGroup_group_witness :
    getTopTileGroup sampleEnv (some [tiledA, floatingTop, tiledB]) false
      = some [tiledA, tiledB] ∧
    [tiledA, tiledB].Pairwise NoOverlap ∧
    (∀ w ∈ [tiledA, tiledB], w.isTiled.isSome = true ∧ w.tiledRect.isSome = true ∧
      currMonitor sampleEnv [tiledA, floatingTop, tiledB] false = some w.monitor) ∧
    [tiledA, tiledB].Sublist [tiledA, floatingTop, tiledB] :=
  ⟨by decide, getTopTileGroup_group sampleEnv [tiledA, floatingTop, tiledB] false
    [tiledA, tiledB] (by decide)⟩

/-! ## Tile rectangle for a side -/

theorem length_sortScreenRects (l : List Rect) : (sortScreenRects l).length = l.length :=
  List.length_insertionSort _ l

theorem mem_sortScreenRects (l : List Rect) (r : Rect) : r ∈ sortScreenRects l ↔ r ∈ l :=
  (List.perm_insertionSort rectLE l).mem_iff

theorem halfIfFull_zero (gaps full : Int) : halfIfFull gaps 0 full = Num.half full := by
  simp [halfIfFull]

theorem toInt_ofInt (n : Int) : (Num.ofInt n).toInt = n := by
  simp [Num.ofInt, Num.toInt, Int.mul_tdiv_cancel_left]

theorem toInt_half_even (k : Int) : (Num.half (2 * k)).toInt = k := by
  simp [Num.half, Num.toInt, Int.mul_tdiv_cancel_left]

theorem toInt_sub_half_even (a k : Int) : ((Num.ofInt a).sub (Num.half (2 * k))).toInt = a - k := by
  have : 2 * a - 2 * k = 2 * (a - k) := by ring
  simp [Num.ofInt, Num.half, Num.sub, Num.toInt, this, Int.mul_tdiv_cancel_left]

theorem searchCorner_short (anchored : Rect → Bool) (l : List Rect) (h : l.length ≤ 1) :
    searchCorner anchored l = (0, 0) := by
  unfold searchCorner
  rw [if_neg (by omega)]

/-- C11: for a work area of even width and height, every gap, and a list
`screenRects` with at most one element, `getTileRectForSide` returns the default
split anchored at the requested side: half the width and the full height for
LEFT and RIGHT, the full width and half the height for TOP and BOTTOM, half the
width and half the height at the corner for the four corners. -/
theorem getTileRectForSide_default (env : Env) (workArea : Rect) (screenRects : List Rect)
    (hlen : screenRects.length ≤ 1) (hw : 2 ∣ workArea.width) (hh : 2 ∣ workArea.height) :
    getTileRectForSide env Side.LEFT workArea screenRects
      = some ⟨workArea.x, workArea.y, workArea.width / 2, workArea.height⟩ ∧
    getTileRectForSide env Side.RIGHT workArea screenRects
      = some ⟨workArea.x + workArea.width / 2, workArea.y, workArea.width / 2, workArea.height⟩ ∧
    getTileRectForSide env Side.TOP workArea screenRects
      = some ⟨workArea.x, workArea.y, workArea.width, workArea.height / 2⟩ ∧
    getTileRectForSide env Side.BOTTOM workArea screenRects
      = some ⟨workArea.x, workArea.y + workArea.height / 2, workArea.width, workArea.height / 2⟩ ∧
    getTileRectForSide env (Side.TOP + Side.LEFT) workArea screenRects
      = some ⟨workArea.x, workArea.y, workArea.width / 2, workArea.height / 2⟩ ∧
    getTileRectForSide env (Side.TOP + Side.RIGHT) workArea screenRects
      = some ⟨workArea.x + workArea.width / 2, workArea.y, workArea.width / 2,
          workArea.height / 2⟩ ∧
    getTileRectForSide env (Side.BOTTOM + Side.LEFT) workArea screenRects
      = some ⟨workArea.x, workArea.y + workArea.height / 2, workArea.width / 2,
          workArea.height / 2⟩ ∧
    getTileRectForSide env (Side.BOTTOM + Side.RIGHT) workArea screenRects
      = some ⟨workArea.x + workArea.width / 2, workArea.y + workArea.height / 2,
          workArea.width / 2, workArea.height / 2⟩ := by
  obtain ⟨x0, y0, W, H⟩ := workArea
  obtain ⟨k, rfl⟩ : ∃ k, W = 2 * k := hw
  obtain ⟨m, rfl⟩ : ∃ m, H = 2 * m := hh
  have hl : ¬ (sortScreenRects screenRects).length > 1 := by
    rw [length_sortScreenRects]; omega
  have hl2 : ¬ (sortScreenRects screenRects).reverse.length > 1 := by
    rw [List.length_reverse, length_sortScreenRects]; omega
  have hc : ∀ p, searchCorner p (sortScreenRects screenRects) = (0, 0) := fun p =>
    searchCorner_short p _ (by rw [length_sortScreenRects]; exact hlen)
  have e1 : 2 * k / 2 = k := by omega
  have e2 : 2 * m / 2 = m := by omega
  have e3 : x0 + 2 * k - k = x0 + k := by ring
  have e4 : y0 + 2 * m - m = y0 + m := by ring
  simp only [getTileRectForSide, hl, hl2, hc, if_false, halfIfFull_zero, Rect.new, toInt_ofInt,
    toInt_half_even, toInt_sub_half_even, Side.LEFT, Side.RIGHT, Side.TOP, Side.BOTTOM, e1, e2,
    e3, e4]
  simp


theorem halfIfFull_keep (gaps size full : Int) (h0 : size ≠ 0)
    (hf : equalApprox size full gaps = false) : halfIfFull gaps size full = Num.ofInt size := by
  simp [halfIfFull, h0, hf]

theorem toInt_sub_ofInt (a b : Int) : ((Num.ofInt a).sub (Num.ofInt b)).toInt = a - b := by
  have : 2 * a - 2 * b = 2 * (a - b) := by ring
  simp [Num.ofInt, Num.sub, Num.toInt, this, Int.mul_tdiv_cancel_left]

theorem searchCorner_found (anchored : Rect → Bool) (l : List Rect) (r : Rect)
    (hlen : l.length > 1) (h : l.find? anchored = some r) :
    searchCorner anchored l = (r.width, r.height) := by
  unfold searchCorner
  rw [if_pos hlen, h]

/-- Witness of C11: `getTileRectForSide(LEFT, {0,0,1000,800}, [])` is `{0,0,500,800}`. -/
theorem getTileRectForSide_default_witness :
    getTileRectForSide sampleEnv Side.LEFT ⟨0, 0, 1000, 800⟩ [] = some ⟨0, 0, 500, 800⟩ :=
  (getTileRectForSide_default sampleEnv ⟨0, 0, 1000, 800⟩ [] (by decide) (by decide)
    (by decide)).1

/-- C12 (counterexample): the rectangle `{0,0,500,800}` is anchored at the top left
corner of the work area `{0,0,1000,800}`, yet for TOP + LEFT the result is
`{0,0,500,400}`: with a single rectangle the search is skipped, and with the
partition into two columns the height 800, being the height of the work area, is
replaced by half of it. -/
theorem getTileRectForSide_corner_not_reused :
    (⟨0, 0, 500, 800⟩ : Rect) ∈ [(⟨0, 0, 500, 800⟩ : Rect)] ∧
    anchorTopLeft 0 ⟨0, 0, 1000, 800⟩ ⟨0, 0, 500, 800⟩ = true ∧
    getTileRectForSide sampleEnv (Side.TOP + Side.LEFT) ⟨0, 0, 1000, 800⟩ [⟨0, 0, 500, 800⟩]
      = some ⟨0, 0, 500, 400⟩ ∧
    getTileRectForSide sampleEnv (Side.TOP + Side.LEFT) ⟨0, 0, 1000, 800⟩ [⟨0, 0, 500, 800⟩]
      ≠ some ⟨0, 0, 500, 800⟩ ∧
    getTileRectForSide sampleEnv (Side.TOP + Side.LEFT) ⟨0, 0, 1000, 800⟩
      [⟨0, 0, 500, 800⟩, ⟨500, 0, 500, 800⟩] = some ⟨0, 0, 500, 400⟩ := by
  decide

/-- The integer stored in a rectangle for the size computed by `halfIfFull`. -/
theorem toInt_halfIfFull (gaps size full : Int) :
    (halfIfFull gaps size full).toInt
      = if size = 0 ∨ equalApprox size full gaps = true then Int.tdiv full 2 else size := by
  unfold halfIfFull
  split_ifs
  · rfl
  · exact toInt_ofInt size

/-- The integer stored in a rectangle for the position `base + full - size` with
the size computed by `halfIfFull`. -/
theorem toInt_sub_halfIfFull (gaps base size full : Int) :
    ((Num.ofInt (base + full)).sub (halfIfFull gaps size full)).toInt
      = if size = 0 ∨ equalApprox size full gaps = true then Int.tdiv (2 * base + full) 2
        else base + full - size := by
  unfold halfIfFull
  split_ifs
  · have e : 2 * (base + full) - full = 2 * base + full := by ring
    simp only [Num.ofInt, Num.half, Num.sub, Num.toInt, e]
  · exact toInt_sub_ofInt (base + full) size

/-- C12 (amended): for each corner, every work area and gap, if `screenRects` has
more than one element and `r` is the first rectangle in the sorted order that is
anchored at that corner, then `getTileRectForSide` returns the rectangle at that
corner whose width and height are decided separately: the width is the width of
`r`, unless that is 0 or within the gap of the width of the work area, in which
case it is half the width of the work area (rounded toward zero); the height
likewise from the height of `r` and of the work area.  On the right and at the
bottom the position is the far edge of the work area minus that size (rounded
toward zero when the size is a half). -/
theorem getTileRectForSide_corner_reuse (env : Env) (workArea : Rect) (screenRects : List Rect)
    (r : Rect) (hlen : screenRects.length > 1) :
    ((sortScreenRects screenRects).find? (anchorTopLeft env.gap workArea) = some r →
      getTileRectForSide env (Side.TOP + Side.LEFT) workArea screenRects
        = some ⟨workArea.x, workArea.y,
            if r.width = 0 ∨ equalApprox r.width workArea.width env.gap = true then
              Int.tdiv workArea.width 2 else r.width,
            if r.height = 0 ∨ equalApprox r.height workArea.height env.gap = true then
              Int.tdiv workArea.height 2 else r.height⟩) ∧
    ((sortScreenRects screenRects).find? (anchorTopRight env.gap workArea) = some r →
      getTileRectForSide env (Side.TOP + Side.RIGHT) workArea screenRects
        = some ⟨if r.width = 0 ∨ equalApprox r.width workArea.width env.gap = true then
              Int.tdiv (2 * workArea.x + workArea.width) 2
            else workArea.x + workArea.width - r.width,
            workArea.y,
            if r.width = 0 ∨ equalApprox r.width workArea.width env.gap = true then
              Int.tdiv workArea.width 2 else r.width,
            if r.height = 0 ∨ equalApprox r.height workArea.height env.gap = true then
              Int.tdiv workArea.height 2 else r.height⟩) ∧
    ((sortScreenRects screenRects).find? (anchorBottomLeft env.gap workArea) = some r →
      getTileRectForSide env (Side.BOTTOM + Side.LEFT) workArea screenRects
        = some ⟨workArea.x,
            if r.height = 0 ∨ equalApprox r.height workArea.height env.gap = true then
              Int.tdiv (2 * workArea.y + workArea.height) 2
            else workArea.y + workArea.height - r.height,
            if r.width = 0 ∨ equalApprox r.width workArea.width env.gap = true then
              Int.tdiv workArea.width 2 else r.width,
            if r.height = 0 ∨ equalApprox r.height workArea.height env.gap = true then
              Int.tdiv workArea.height 2 else r.height⟩) ∧
    ((sortScreenRects screenRects).find? (anchorBottomRight env.gap workArea) = some r →
      getTileRectForSide env (Side.BOTTOM + Side.RIGHT) workArea screenRects
        = some ⟨if r.width = 0 ∨ equalApprox r.width workArea.width env.gap = true then
              Int.tdiv (2 * workArea.x + workArea.width) 2
            else workArea.x + workArea.width - r.width,
            if r.height = 0 ∨ equalApprox r.height workArea.height env.gap = true then
              Int.tdiv (2 * workArea.y + workArea.height) 2
            else workArea.y + workArea.height - r.height,
            if r.width = 0 ∨ equalApprox r.width workArea.width env.gap = true then
              Int.tdiv workArea.width 2 else r.width,
            if r.height = 0 ∨ equalApprox r.height workArea.height env.gap = true then
              Int.tdiv workArea.height 2 else r.height⟩) := by
  have hl : (sortScreenRects screenRects).length > 1 := by
    rw [length_sortScreenRects]; exact hlen
  refine ⟨?_, ?_, ?_, ?_⟩ <;> intro hf <;>
    simp only [getTileRectForSide, searchCorner_found _ _ r hl hf, Rect.new, toInt_ofInt,
      toInt_halfIfFull, toInt_sub_halfIfFull, Side.LEFT, Side.RIGHT, Side.TOP, Side.BOTTOM] <;>
    simp

/-- Witness of C12 (amended): the first of two full-height columns, 300 wide, is
anchored at the top left corner of the work area `{0,0,1000,800}`; its width 300
is kept and its height 800, the height of the work area, is replaced by 400. -/
theorem getTileRectForSide_corner_reuse_witness :
    getTileRectForSide (envWithGap 10) (Side.TOP + Side.LEFT) ⟨0, 0, 1000, 800⟩
      [⟨0, 0, 300, 800⟩, ⟨300, 0, 700, 800⟩] = some ⟨0, 0, 300, 400⟩ :=
  ((getTileRectForSide_corner_reuse (envWithGap 10) ⟨0, 0, 1000, 800⟩
    [⟨0, 0, 300, 800⟩, ⟨300, 0, 700, 800⟩] ⟨0, 0, 300, 800⟩ (by decide)).1 (by decide)).trans
    (by decide)

/-- C13 (the code at a failing input): the work area `{0,0,1000,800}` is split into
two full-width rows meeting at offset 300, the gap is 10.  For BOTTOM the code
returns the default half `{0,400,1000,400}` instead of the lower row
`{0,300,1000,500}`: the loop meets the lower row first, which spans the width by
itself, and computes the height 0.  For TOP the same partition gives the upper
row `{0,0,1000,300}`. -/
theorem getTileRectForSide_bottom_rows :
    getTileRectForSide (envWithGap 10) Side.BOTTOM ⟨0, 0, 1000, 800⟩
      [⟨0, 0, 1000, 300⟩, ⟨0, 300, 1000, 500⟩] = some ⟨0, 400, 1000, 400⟩ ∧
    getTileRectForSide (envWithGap 10) Side.BOTTOM ⟨0, 0, 1000, 800⟩
      [⟨0, 0, 1000, 300⟩, ⟨0, 300, 1000, 500⟩] ≠ some ⟨0, 300, 1000, 500⟩ ∧
    getTileRectForSide (envWithGap 10) Side.TOP ⟨0, 0, 1000, 800⟩
      [⟨0, 0, 1000, 300⟩, ⟨0, 300, 1000, 500⟩] = some ⟨0, 0, 1000, 300⟩ := by
  decide

/-- C14 (counterexample): a rectangle of `screenRects` that reaches beyond the work
area `{0,0,1000,800}` makes the result for LEFT `{0,0,2000,800}`, which does not
lie within the work area; nothing clips the result. -/
theorem getTileRectForSide_not_within :
    getTileRectForSide sampleEnv Side.LEFT ⟨0, 0, 1000, 800⟩
      [⟨0, 0, 2000, 800⟩, ⟨2000, 0, 100, 100⟩] = some ⟨0, 0, 2000, 800⟩ ∧
    ¬ Rect.within ⟨0, 0, 2000, 800⟩ ⟨0, 0, 1000, 800⟩ := by
  decide


theorem tdiv_two_nonneg (n : Int) (h : 0 ≤ n) : n.tdiv 2 = n / 2 :=
  Int.tdiv_eq_ediv h (by decide)

theorem tdiv_two_neg (n : Int) (h : n < 0) : n.tdiv 2 = -((-n) / 2) := by
  have h1 : n = -(-n) := by omega
  rw [h1, Int.neg_tdiv, tdiv_two_nonneg (-n) (by omega)]
  simp

/-- Bounds on a size that is either kept or replaced by half of the full extent,
and on the position of a rectangle of that size anchored at the far edge. -/
theorem halfIfFull_bounds (gaps s full a : Int) (hfull : 0 ≤ full) (hs0 : 0 ≤ s)
    (hs : s ≤ full) :
    (halfIfFull gaps s full).toInt ≤ full ∧
    a ≤ ((Num.ofInt (a + full)).sub (halfIfFull gaps s full)).toInt ∧
    ((Num.ofInt (a + full)).sub (halfIfFull gaps s full)).toInt
      + (halfIfFull gaps s full).toInt ≤ a + full := by
  unfold halfIfFull
  split_ifs with hc
  · simp only [Num.half, Num.ofInt, Num.sub, Num.toInt]
    rw [tdiv_two_nonneg full hfull]
    rcases lt_or_le (2 * (a + full) - full) 0 with hn | hn
    · rw [tdiv_two_neg _ hn]
      omega
    · rw [tdiv_two_nonneg _ hn]
      omega
  · rw [toInt_sub_ofInt, toInt_ofInt]
    omega

theorem searchLeft_mem (gaps : Int) (wa : Rect) (l : List Rect) :
    searchLeft gaps wa l = 0 ∨ ∃ r ∈ l, searchLeft gaps wa l = r.x + r.width - wa.x := by
  induction l with
  | nil => exact Or.inl rfl
  | cons r rest ih =>
    unfold searchLeft
    simp only
    split_ifs
    · exact Or.inr ⟨r, List.mem_cons_self _ _, rfl⟩
    · rcases ih with h | ⟨s, hs, h⟩
      · exact Or.inl h
      · exact Or.inr ⟨s, List.mem_cons_of_mem _ hs, h⟩

theorem searchRight_mem (gaps : Int) (wa : Rect) (l : List Rect) :
    searchRight gaps wa l = 0 ∨ ∃ r ∈ l, searchRight gaps wa l = wa.x + wa.width - r.x := by
  induction l with
  | nil => exact Or.inl rfl
  | cons r rest ih =>
    unfold searchRight
    simp only
    split_ifs
    · exact Or.inr ⟨r, List.mem_cons_self _ _, rfl⟩
    · rcases ih with h | ⟨s, hs, h⟩
      · exact Or.inl h
      · exact Or.inr ⟨s, List.mem_cons_of_mem _ hs, h⟩

theorem searchTop_mem (gaps : Int) (wa : Rect) (l : List Rect) :
    searchTop gaps wa l = 0 ∨ ∃ r ∈ l, searchTop gaps wa l = r.y + r.height - wa.y := by
  induction l with
  | nil => exact Or.inl rfl
  | cons r rest ih =>
    unfold searchTop
    simp only
    split_ifs
    · exact Or.inr ⟨r, List.mem_cons_self _ _, rfl⟩
    · rcases ih with h | ⟨s, hs, h⟩
      · exact Or.inl h
      · exact Or.inr ⟨s, List.mem_cons_of_mem _ hs, h⟩

theorem searchBottom_mem (gaps : Int) (wa : Rect) (l : List Rect) :
    searchBottom gaps wa l = 0 ∨
      ∃ r ∈ l, searchBottom gaps wa l = wa.y + wa.height - (r.y + r.height) := by
  induction l with
  | nil => exact Or.inl rfl
  | cons r rest ih =>
    unfold searchBottom
    simp only
    split_ifs
    · exact Or.inr ⟨r, List.mem_cons_self _ _, rfl⟩
    · rcases ih with h | ⟨s, hs, h⟩
      · exact Or.inl h
      · exact Or.inr ⟨s, List.mem_cons_of_mem _ hs, h⟩

theorem searchCorner_mem (anchored : Rect → Bool) (l : List Rect) :
    searchCorner anchored l = (0, 0) ∨
      ∃ r ∈ l, searchCorner anchored l = (r.width, r.height) := by
  unfold searchCorner
  split_ifs
  · cases hf : l.find? anchored with
    | none => exact Or.inl rfl
    | some r => exact Or.inr ⟨r, List.mem_of_find?_eq_some hf, rfl⟩
  · exact Or.inl rfl

/-- Rectangles of the sorted list, and of its reversal, are rectangles of the input. -/
theorem mem_sorted_reverse (l : List Rect) (r : Rect) :
    r ∈ (sortScreenRects l).reverse ↔ r ∈ l := by
  rw [List.mem_reverse, mem_sortScreenRects]

theorem within_of_bounds (wa : Rect) (x y w h : Int) (hx : wa.x ≤ x) (hy : wa.y ≤ y)
    (hx2 : x + w ≤ wa.x + wa.width) (hy2 : y + h ≤ wa.y + wa.height) :
    Rect.within ⟨x, y, w, h⟩ wa := ⟨hx, hy, hx2, hy2⟩

theorem getTileRectForSide_left (env : Env) (wa : Rect) (l : List Rect) :
    getTileRectForSide env Side.LEFT wa l
      = some (Rect.new (Num.ofInt wa.x) (Num.ofInt wa.y)
          (halfIfFull env.gap
            (if (sortScreenRects l).length > 1 then searchLeft env.gap wa (sortScreenRects l)
              else 0) wa.width)
          (Num.ofInt wa.height)) := rfl

theorem getTileRectForSide_right (env : Env) (wa : Rect) (l : List Rect) :
    getTileRectForSide env Side.RIGHT wa l
      = some (Rect.new
          ((Num.ofInt (wa.x + wa.width)).sub (halfIfFull env.gap
            (if (sortScreenRects l).length > 1 then
              searchRight env.gap wa (sortScreenRects l).reverse else 0) wa.width))
          (Num.ofInt wa.y)
          (halfIfFull env.gap
            (if (sortScreenRects l).length > 1 then
              searchRight env.gap wa (sortScreenRects l).reverse else 0) wa.width)
          (Num.ofInt wa.height)) := rfl

theorem getTileRectForSide_top (env : Env) (wa : Rect) (l : List Rect) :
    getTileRectForSide env Side.TOP wa l
      = some (Rect.new (Num.ofInt wa.x) (Num.ofInt wa.y) (Num.ofInt wa.width)
          (halfIfFull env.gap
            (if (sortScreenRects l).length > 1 then searchTop env.gap wa (sortScreenRects l)
              else 0) wa.height)) := rfl

theorem getTileRectForSide_bottom (env : Env) (wa : Rect) (l : List Rect) :
    getTileRectForSide env Side.BOTTOM wa l
      = some (Rect.new (Num.ofInt wa.x)
          ((Num.ofInt (wa.y + wa.height)).sub (halfIfFull env.gap
            (if (sortScreenRects l).reverse.length > 1 then
              searchBottom env.gap wa (sortScreenRects l).reverse else 0) wa.height))
          (Num.ofInt wa.width)
          (halfIfFull env.gap
            (if (sortScreenRects l).reverse.length > 1 then
              searchBottom env.gap wa (sortScreenRects l).reverse else 0) wa.height)) := rfl

theorem getTileRectForSide_topLeft (env : Env) (wa : Rect) (l : List Rect) :
    getTileRectForSide env (Side.TOP + Side.LEFT) wa l
      = some (Rect.new (Num.ofInt wa.x) (Num.ofInt wa.y)
          (halfIfFull env.gap (searchCorner (anchorTopLeft env.gap wa) (sortScreenRects l)).1
            wa.width)
          (halfIfFull env.gap (searchCorner (anchorTopLeft env.gap wa) (sortScreenRects l)).2
            wa.height)) := rfl

theorem getTileRectForSide_topRight (env : Env) (wa : Rect) (l : List Rect) :
    getTileRectForSide env (Side.TOP + Side.RIGHT) wa l
      = some (Rect.new
          ((Num.ofInt (wa.x + wa.width)).sub (halfIfFull env.gap
            (searchCorner (anchorTopRight env.gap wa) (sortScreenRects l)).1 wa.width))
          (Num.ofInt wa.y)
          (halfIfFull env.gap (searchCorner (anchorTopRight env.gap wa) (sortScreenRects l)).1
            wa.width)
          (halfIfFull env.gap (searchCorner (anchorTopRight env.gap wa) (sortScreenRects l)).2
            wa.height)) := rfl

theorem getTileRectForSide_bottomLeft (env : Env) (wa : Rect) (l : List Rect) :
    getTileRectForSide env (Side.BOTTOM + Side.LEFT) wa l
      = some (Rect.new (Num.ofInt wa.x)
          ((Num.ofInt (wa.y + wa.height)).sub (halfIfFull env.gap
            (searchCorner (anchorBottomLeft env.gap wa) (sortScreenRects l)).2 wa.height))
          (halfIfFull env.gap (searchCorner (anchorBottomLeft env.gap wa) (sortScreenRects l)).1
            wa.width)
          (halfIfFull env.gap (searchCorner (anchorBottomLeft env.gap wa) (sortScreenRects l)).2
            wa.height)) := rfl

theorem getTileRectForSide_bottomRight (env : Env) (wa : Rect) (l : List Rect) :
    getTileRectForSide env (Side.BOTTOM + Side.RIGHT) wa l
      = some (Rect.new
          ((Num.ofInt (wa.x + wa.width)).sub (halfIfFull env.gap
            (searchCorner (anchorBottomRight env.gap wa) (sortScreenRects l)).1 wa.width))
          ((Num.ofInt (wa.y + wa.height)).sub (halfIfFull env.gap
            (searchCorner (anchorBottomRight env.gap wa) (sortScreenRects l)).2 wa.height))
          (halfIfFull env.gap (searchCorner (anchorBottomRight env.gap wa) (sortScreenRects l)).1
            wa.width)
          (halfIfFull env.gap (searchCorner (anchorBottomRight env.gap wa) (sortScreenRects l)).2
            wa.height)) := rfl

/-- The size found by an edge loop lies between 0 and the extent of the work area. -/
theorem edge_size_bounds (full : Int) (hfull : 0 ≤ full) (c : Prop) [Decidable c] (s : Int)
    (hs : s = 0 ∨ (0 ≤ s ∧ s ≤ full)) :
    0 ≤ (if c then s else 0) ∧ (if c then s else 0) ≤ full := by
  split_ifs
  · rcases hs with h | h
    · rw [h]; exact ⟨le_refl _, hfull⟩
    · exact h
  · exact ⟨le_refl _, hfull⟩

/-- C14 (amended): for each of the eight sides, every work area of non-negative
width and height, every gap, and every list `screenRects` of rectangles of
non-negative width and height that lie within the work area, `getTileRectForSide`
returns a rectangle that lies within the work area. -/
theorem getTileRectForSide_within (env : Env) (side : Nat) (workArea : Rect)
    (screenRects : List Rect) (hside : side ∈ allSides)
    (hW : 0 ≤ workArea.width) (hH : 0 ≤ workArea.height)
    (hrects : ∀ r ∈ screenRects, 0 ≤ r.width ∧ 0 ≤ r.height ∧ r.within workArea) :
    ∃ res, getTileRectForSide env side workArea screenRects = some res ∧
      res.within workArea := by
  have hsorted : ∀ r ∈ sortScreenRects screenRects,
      0 ≤ r.width ∧ 0 ≤ r.height ∧ r.within workArea :=
    fun r hr => hrects r ((mem_sortScreenRects _ r).mp hr)
  have hrev : ∀ r ∈ (sortScreenRects screenRects).reverse,
      0 ≤ r.width ∧ 0 ≤ r.height ∧ r.within workArea :=
    fun r hr => hrects r ((mem_sorted_reverse _ r).mp hr)
  have hL : searchLeft env.gap workArea (sortScreenRects screenRects) = 0 ∨
      (0 ≤ searchLeft env.gap workArea (sortScreenRects screenRects) ∧
        searchLeft env.gap workArea (sortScreenRects screenRects) ≤ workArea.width) := by
    rcases searchLeft_mem env.gap workArea (sortScreenRects screenRects) with h | ⟨r, hr, h⟩
    · exact Or.inl h
    · obtain ⟨h1, -, h3⟩ := hsorted r hr
      unfold Rect.within at h3
      rw [h]; right; omega
  have hR : searchRight env.gap workArea (sortScreenRects screenRects).reverse = 0 ∨
      (0 ≤ searchRight env.gap workArea (sortScreenRects screenRects).reverse ∧
        searchRight env.gap workArea (sortScreenRects screenRects).reverse
          ≤ workArea.width) := by
    rcases searchRight_mem env.gap workArea (sortScreenRects screenRects).reverse
      with h | ⟨r, hr, h⟩
    · exact Or.inl h
    · obtain ⟨h1, -, h3⟩ := hrev r hr
      unfold Rect.within at h3
      rw [h]; right; omega
  have hT : searchTop env.gap workArea (sortScreenRects screenRects) = 0 ∨
      (0 ≤ searchTop env.gap workArea (sortScreenRects screenRects) ∧
        searchTop env.gap workArea (sortScreenRects screenRects) ≤ workArea.height) := by
    rcases searchTop_mem env.gap workArea (sortScreenRects screenRects) with h | ⟨r, hr, h⟩
    · exact Or.inl h
    · obtain ⟨-, h2, h3⟩ := hsorted r hr
      unfold Rect.within at h3
      rw [h]; right; omega
  have hB : searchBottom env.gap workArea (sortScreenRects screenRects).reverse = 0 ∨
      (0 ≤ searchBottom env.gap workArea (sortScreenRects screenRects).reverse ∧
        searchBottom env.gap workArea (sortScreenRects screenRects).reverse
          ≤ workArea.height) := by
    rcases searchBottom_mem env.gap workArea (sortScreenRects screenRects).reverse
      with h | ⟨r, hr, h⟩
    · exact Or.inl h
    · obtain ⟨-, h2, h3⟩ := hrev r hr
      unfold Rect.within at h3
      rw [h]; right; omega
  have hC : ∀ p : Rect → Bool,
      (0 ≤ (searchCorner p (sortScreenRects screenRects)).1 ∧
        (searchCorner p (sortScreenRects screenRects)).1 ≤ workArea.width) ∧
      (0 ≤ (searchCorner p (sortScreenRects screenRects)).2 ∧
        (searchCorner p (sortScreenRects screenRects)).2 ≤ workArea.height) := by
    intro p
    rcases searchCorner_mem p (sortScreenRects screenRects) with h | ⟨r, hr, h⟩
    · rw [h]; exact ⟨⟨le_refl _, hW⟩, ⟨le_refl _, hH⟩⟩
    · obtain ⟨h1, h2, h3⟩ := hsorted r hr
      unfold Rect.within at h3
      rw [h]
      simp only
      omega
  simp only [allSides, List.mem_cons, List.mem_singleton, List.not_mem_nil, or_false] at hside
  rcases hside with rfl | rfl | rfl | rfl | rfl | rfl | rfl | rfl
  · obtain ⟨h0, h1⟩ := edge_size_bounds workArea.width hW
      ((sortScreenRects screenRects).length > 1) _ hL
    obtain ⟨b1, -, -⟩ := halfIfFull_bounds env.gap _ workArea.width workArea.x hW h0 h1
    refine ⟨_, getTileRectForSide_left env workArea screenRects, ?_⟩
    simp only [Rect.new, toInt_ofInt]
    exact within_of_bounds _ _ _ _ _ (le_refl _) (le_refl _) (by omega) (le_refl _)
  · obtain ⟨h0, h1⟩ := edge_size_bounds workArea.width hW
      ((sortScreenRects screenRects).length > 1) _ hR
    obtain ⟨-, b2, b3⟩ := halfIfFull_bounds env.gap _ workArea.width workArea.x hW h0 h1
    refine ⟨_, getTileRectForSide_right env workArea screenRects, ?_⟩
    simp only [Rect.new, toInt_ofInt]
    exact within_of_bounds _ _ _ _ _ b2 (le_refl _) b3 (le_refl _)
  · obtain ⟨h0, h1⟩ := edge_size_bounds workArea.height hH
      ((sortScreenRects screenRects).length > 1) _ hT
    obtain ⟨b1, -, -⟩ := halfIfFull_bounds env.gap _ workArea.height workArea.y hH h0 h1
    refine ⟨_, getTileRectForSide_top env workArea screenRects, ?_⟩
    simp only [Rect.new, toInt_ofInt]
    exact within_of_bounds _ _ _ _ _ (le_refl _) (le_refl _) (le_refl _) (by omega)
  · obtain ⟨h0, h1⟩ := edge_size_bounds workArea.height hH
      ((sortScreenRects screenRects).reverse.length > 1) _ hB
    obtain ⟨-, b2, b3⟩ := halfIfFull_bounds env.gap _ workArea.height workArea.y hH h0 h1
    refine ⟨_, getTileRectForSide_bottom env workArea screenRects, ?_⟩
    simp only [Rect.new, toInt_ofInt]
    exact within_of_bounds _ _ _ _ _ (le_refl _) b2 (le_refl _) b3
  · obtain ⟨⟨w0, w1⟩, ⟨g0, g1⟩⟩ := hC (anchorTopLeft env.gap workArea)
    obtain ⟨bw, -, -⟩ := halfIfFull_bounds env.gap _ workArea.width workArea.x hW w0 w1
    obtain ⟨bh, -, -⟩ := halfIfFull_bounds env.gap _ workArea.height workArea.y hH g0 g1
    refine ⟨_, getTileRectForSide_topLeft env workArea screenRects, ?_⟩
    simp only [Rect.new, toInt_ofInt]
    exact within_of_bounds _ _ _ _ _ (le_refl _) (le_refl _) (by omega) (by omega)
  · obtain ⟨⟨w0, w1⟩, ⟨g0, g1⟩⟩ := hC (anchorTopRight env.gap workArea)
    obtain ⟨-, bx, bx2⟩ := halfIfFull_bounds env.gap _ workArea.width workArea.x hW w0 w1
    obtain ⟨bh, -, -⟩ := halfIfFull_bounds env.gap _ workArea.height workArea.y hH g0 g1
    refine ⟨_, getTileRectForSide_topRight env workArea screenRects, ?_⟩
    simp only [Rect.new, toInt_ofInt]
    exact within_of_bounds _ _ _ _ _ bx (le_refl _) bx2 (by omega)
  · obtain ⟨⟨w0, w1⟩, ⟨g0, g1⟩⟩ := hC (anchorBottomLeft env.gap workArea)
    obtain ⟨bw, -, -⟩ := halfIfFull_bounds env.gap _ workArea.width workArea.x hW w0 w1
    obtain ⟨-, by1, by2⟩ := halfIfFull_bounds env.gap _ workArea.height workArea.y hH g0 g1
    refine ⟨_, getTileRectForSide_bottomLeft env workArea screenRects, ?_⟩
    simp only [Rect.new, toInt_ofInt]
    exact within_of_bounds _ _ _ _ _ (le_refl _) by1 (by omega) by2
  · obtain ⟨⟨w0, w1⟩, ⟨g0, g1⟩⟩ := hC (anchorBottomRight env.gap workArea)
    obtain ⟨-, bx, bx2⟩ := halfIfFull_bounds env.gap _ workArea.width workArea.x hW w0 w1
    obtain ⟨-, by1, by2⟩ := halfIfFull_bounds env.gap _ workArea.height workArea.y hH g0 g1
    refine ⟨_, getTileRectForSide_bottomRight env workArea screenRects, ?_⟩
    simp only [Rect.new, toInt_ofInt]
    exact within_of_bounds _ _ _ _ _ bx by1 bx2 by2

/-- Witness of C14 (amended): RIGHT on a work area of odd width and height split
into two columns. -/
theorem getTileRectForSide_within_witness :
    ∃ res, getTileRectForSide (envWithGap 10) Side.RIGHT ⟨0, 0, 1001, 801⟩
        [⟨0, 0, 300, 801⟩, ⟨300, 0, 701, 801⟩] = some res ∧
      res.within ⟨0, 0, 1001, 801⟩ :=
  getTileRectForSide_within (envWithGap 10) Side.RIGHT ⟨0, 0, 1001, 801⟩
    [⟨0, 0, 300, 801⟩, ⟨300, 0, 701, 801⟩] (by decide) (by decide) (by decide) (by decide)


theorem equalApprox_true_iff (a b m : Int) : equalApprox a b m = true ↔ b - m ≤ a ∧ a ≤ b + m := by
  simp [equalApprox]

theorem equalApprox_false_iff (a b m : Int) :
    equalApprox a b m = false ↔ a < b - m ∨ b + m < a := by
  rw [← Bool.not_eq_true, equalApprox_true_iff]
  omega

theorem sortScreenRects_pair (a b : Rect) (h : rectLE a b) : sortScreenRects [a, b] = [a, b] := by
  simp [sortScreenRects, List.insertionSort, List.orderedInsert, h]

/-- Support for C13: for the partition of the work area into two full-height
columns meeting at offset `c`, LEFT and RIGHT return the column at that edge, and
for the partition into two full-width rows TOP returns the upper row. -/
theorem getTileRectForSide_strips (env : Env) (x0 y0 W H c : Int) (hg : 0 ≤ env.gap)
    (hc : env.gap < c) :
    (env.gap < W - c →
      getTileRectForSide env Side.LEFT ⟨x0, y0, W, H⟩ [⟨x0, y0, c, H⟩, ⟨x0 + c, y0, W - c, H⟩]
        = some ⟨x0, y0, c, H⟩ ∧
      getTileRectForSide env Side.RIGHT ⟨x0, y0, W, H⟩ [⟨x0, y0, c, H⟩, ⟨x0 + c, y0, W - c, H⟩]
        = some ⟨x0 + c, y0, W - c, H⟩) ∧
    (env.gap < H - c →
      getTileRectForSide env Side.TOP ⟨x0, y0, W, H⟩ [⟨x0, y0, W, c⟩, ⟨x0, y0 + c, W, H - c⟩]
        = some ⟨x0, y0, W, c⟩) := by
  have hs1 : sortScreenRects [⟨x0, y0, c, H⟩, ⟨x0 + c, y0, W - c, H⟩]
      = [⟨x0, y0, c, H⟩, ⟨x0 + c, y0, W - c, H⟩] :=
    sortScreenRects_pair _ _ (Or.inl (by simp only; omega))
  have hs2 : sortScreenRects [⟨x0, y0, W, c⟩, ⟨x0, y0 + c, W, H - c⟩]
      = [⟨x0, y0, W, c⟩, ⟨x0, y0 + c, W, H - c⟩] :=
    sortScreenRects_pair _ _ (Or.inr ⟨rfl, by simp only; omega⟩)
  refine ⟨fun hw => ⟨?_, ?_⟩, fun hh => ?_⟩
  · have f1 : equalApprox (x0 + c) (x0 + c + (W - c)) env.gap = false :=
      (equalApprox_false_iff _ _ _).mpr (by omega)
    have f2 : equalApprox (0 + H) H env.gap = true :=
      (equalApprox_true_iff _ _ _).mpr (by omega)
    have f3 : equalApprox (x0 + c - x0) W env.gap = false :=
      (equalApprox_false_iff _ _ _).mpr (by omega)
    have f4 : x0 + c - x0 ≠ 0 := by omega
    have k : halfIfFull env.gap c W = Num.ofInt c :=
      halfIfFull_keep _ _ _ (by omega) ((equalApprox_false_iff _ _ _).mpr (by omega))
    rw [getTileRectForSide_left, hs1]
    simp only [List.length_cons, List.length_nil, searchLeft, List.filter, f1, List.foldl, f2,
      if_true, halfIfFull_keep _ _ _ f4 f3, Rect.new, toInt_ofInt]
    simp [k, toInt_ofInt]
  · have f1 : equalApprox (x0 + c) x0 env.gap = false :=
      (equalApprox_false_iff _ _ _).mpr (by omega)
    have f2 : equalApprox (0 + H) H env.gap = true :=
      (equalApprox_true_iff _ _ _).mpr (by omega)
    have f3 : equalApprox (x0 + W - (x0 + c)) W env.gap = false :=
      (equalApprox_false_iff _ _ _).mpr (by omega)
    have f4 : x0 + W - (x0 + c) ≠ 0 := by omega
    have k : halfIfFull env.gap (W - c) W = Num.ofInt (W - c) :=
      halfIfFull_keep _ _ _ (by omega) ((equalApprox_false_iff _ _ _).mpr (by omega))
    rw [getTileRectForSide_right, hs1]
    simp only [List.length_cons, List.length_nil, List.reverse_cons, List.reverse_nil,
      List.nil_append, List.cons_append, searchRight, List.filter, f1, List.foldl, f2, if_true,
      halfIfFull_keep _ _ _ f4 f3, Rect.new, toInt_ofInt, toInt_sub_ofInt]
    simp [k, toInt_ofInt, toInt_sub_ofInt]
    omega
  · have f1 : equalApprox (y0 + c) (y0 + c + (H - c)) env.gap = false :=
      (equalApprox_false_iff _ _ _).mpr (by omega)
    have f2 : equalApprox (0 + W) W env.gap = true :=
      (equalApprox_true_iff _ _ _).mpr (by omega)
    have f3 : equalApprox (y0 + c - y0) H env.gap = false :=
      (equalApprox_false_iff _ _ _).mpr (by omega)
    have f4 : y0 + c - y0 ≠ 0 := by omega
    have k : halfIfFull env.gap c H = Num.ofInt c :=
      halfIfFull_keep _ _ _ (by omega) ((equalApprox_false_iff _ _ _).mpr (by omega))
    rw [getTileRectForSide_top, hs2]
    simp only [List.length_cons, List.length_nil, searchTop, List.filter, f1, List.foldl, f2,
      if_true, halfIfFull_keep _ _ _ f4 f3, Rect.new, toInt_ofInt]
    simp [k, toInt_ofInt]

/-! ## Tile groups -/

theorem updateSteps_arrays (ref : Nat) (l : List Nat) :
    ∀ st : GroupState, (l.foldl (updateTileGroupStep ref) st).arrays = st.arrays := by
  induction l with
  | nil => intro st; rfl
  | cons w l ih =>
    intro st
    rw [List.foldl_cons, ih]
    unfold updateTileGroupStep
    simp only
    split_ifs <;> rfl

theorem updateTileGroupStep_tileGroup (ref : Nat) (st : GroupState) (w : Nat) :
    (updateTileGroupStep ref st w).tileGroup = Function.update st.tileGroup w (some ref) := by
  unfold updateTileGroupStep
  simp only
  split_ifs <;> rfl

theorem updateSteps_tileGroup (ref : Nat) (l : List Nat) :
    ∀ (st : GroupState) (v : Nat),
      (l.foldl (updateTileGroupStep ref) st).tileGroup v
        = if v ∈ l then some ref else st.tileGroup v := by
  induction l with
  | nil => intro st v; simp
  | cons w l ih =>
    intro st v
    rw [List.foldl_cons, ih, updateTileGroupStep_tileGroup]
    by_cases hv : v ∈ l
    · simp [hv]
    · by_cases hvw : v = w
      · subst hvw; simp [hv]
      · simp [hv, hvw, Function.update_noteq hvw]

theorem getD_append_length (l : List (List Nat)) (g : List Nat) :
    (l ++ [g]).getD l.length [] = g := by
  simp [List.getD]

theorem updateTileGroupNew_arrays (st : GroupState) (group : List Nat) :
    (updateTileGroupNew st group).arrays = st.arrays ++ [group] := by
  unfold updateTileGroupNew updateTileGroup
  rw [updateSteps_arrays]

theorem updateTileGroupNew_tileGroup (st : GroupState) (group : List Nat) (v : Nat) :
    (updateTileGroupNew st group).tileGroup v
      = if v ∈ group then some st.arrays.length else st.tileGroup v := by
  unfold updateTileGroupNew updateTileGroup
  rw [updateSteps_tileGroup]
  simp only [GroupState.array, getD_append_length]

theorem removeFromGroupOf_tileGroup (x : Nat) (st : GroupState) (w : Nat) :
    (removeFromGroupOf x st w).tileGroup = st.tileGroup := by
  unfold removeFromGroupOf
  split <;> rfl

theorem removeLoop_tileGroup (x ref : Nat) :
    ∀ (n k : Nat) (st : GroupState), (removeLoop x ref n k st).tileGroup = st.tileGroup := by
  intro n
  induction n with
  | zero => intro k st; rfl
  | succ n ih =>
    intro k st
    unfold removeLoop
    simp only
    rw [ih]
    split
    · rfl
    · exact removeFromGroupOf_tileGroup _ _ _

theorem set_getD_self (l : List (List Nat)) (i : Nat) : l.set i (l.getD i []) = l := by
  induction l generalizing i with
  | nil => rfl
  | cons a l ih =>
    cases i with
    | zero => rfl
    | succ i => simp only [List.set_cons_succ, List.getD_cons_succ, ih]

/-- Once `x` is gone from the array `ref`, whose members all hold that array,
the rest of the traversal changes nothing. -/
theorem removeLoop_idle (x ref : Nat) :
    ∀ (n k : Nat) (st : GroupState), x ∉ st.array ref →
      (∀ v ∈ st.array ref, st.tileGroup v = some ref) → removeLoop x ref n k st = st := by
  intro n
  induction n with
  | zero => intro k st _ _; rfl
  | succ n ih =>
    intro k st hx hall
    unfold removeLoop
    simp only
    have hstep : (match (st.array ref)[k]? with
        | none => st
        | some w => removeFromGroupOf x st w) = st := by
      cases hk : (st.array ref)[k]? with
      | none => rfl
      | some w =>
        have hw : w ∈ st.array ref := List.getElem?_mem hk
        simp only [removeFromGroupOf, hall w hw, List.erase_of_not_mem hx]
        unfold GroupState.array
        rw [set_getD_self]
    rw [hstep]
    exact ih (k + 1) st hx hall

/-- The effect of `removeTileGroup` on a window whose group array holds it once
and is held by all its members: the window is deleted from the array and loses
its group; no other group changes. -/
theorem removeTileGroup_spec (st : GroupState) (x ref : Nat) (h : st.tileGroup x = some ref)
    (hlt : ref < st.arrays.length) (hx : x ∈ st.array ref) (hnd : (st.array ref).Nodup)
    (hall : ∀ v ∈ st.array ref, st.tileGroup v = some ref) :
    (removeTileGroup st x).arrays = st.arrays.set ref ((st.array ref).erase x) ∧
    (removeTileGroup st x).tileGroup = Function.update st.tileGroup x none := by
  -- the state after the focus handler is disconnected
  obtain ⟨st1, hst1, ha, ht⟩ : ∃ st1 : GroupState,
      removeTileGroup st x =
        { removeLoop x ref (st1.array ref).length 0 st1 with
          tileGroup := Function.update
            (removeLoop x ref (st1.array ref).length 0 st1).tileGroup x none } ∧
      st1.arrays = st.arrays ∧ st1.tileGroup = st.tileGroup := by
    unfold removeTileGroup
    simp only [h]
    split_ifs
    · exact ⟨_, rfl, rfl, rfl⟩
    · exact ⟨_, rfl, rfl, rfl⟩
  have harr : st1.array ref = st.array ref := by unfold GroupState.array; rw [ha]
  obtain ⟨w, rest, hcons⟩ : ∃ w rest, st.array ref = w :: rest := by
    cases hl : st.array ref with
    | nil => rw [hl] at hx; simp at hx
    | cons w rest => exact ⟨w, rest, rfl⟩
  have hw : st.tileGroup w = some ref := hall w (by rw [hcons]; exact List.mem_cons_self _ _)
  -- the first visit deletes `x`, the others are idle
  have hloop : removeLoop x ref (st1.array ref).length 0 st1
      = { st1 with arrays := st1.arrays.set ref ((st1.array ref).erase x) } := by
    rw [harr, hcons, List.length_cons]
    unfold removeLoop
    simp only [harr, hcons, List.getElem?_cons_zero, removeFromGroupOf, ht, hw]
    apply removeLoop_idle
    · simp only [GroupState.array, ha, List.getD_eq_getElem?_getD,
        List.getElem?_set_self hlt, Option.getD_some]
      rw [← hcons]
      exact fun hmem => (List.Nodup.mem_erase_iff hnd).mp hmem |>.1 rfl
    · intro v hv
      simp only [GroupState.array, ha, List.getD_eq_getElem?_getD,
        List.getElem?_set_self hlt, Option.getD_some] at hv
      rw [← hcons] at hv
      simp only [ht]
      exact hall v (List.mem_of_mem_erase hv)
  rw [hst1, hloop]
  simp only [ha, ht, harr]
  exact ⟨trivial, trivial⟩


theorem array_updateTileGroupNew_new (st : GroupState) (group : List Nat) :
    (updateTileGroupNew st group).array st.arrays.length = group := by
  unfold GroupState.array
  rw [updateTileGroupNew_arrays, getD_append_length]

theorem array_updateTileGroupNew_old (st : GroupState) (group : List Nat) (ref : Nat)
    (h : ref < st.arrays.length) : (updateTileGroupNew st group).array ref = st.array ref := by
  unfold GroupState.array
  rw [updateTileGroupNew_arrays]
  simp only [List.getD_eq_getElem?_getD, List.getElem?_append_left h]

theorem array_set_self (st : GroupState) (ref : Nat) (l : List Nat) (h : ref < st.arrays.length) :
    (st.arrays.set ref l).getD ref [] = l := by
  simp only [List.getD_eq_getElem?_getD, List.getElem?_set_self h, Option.getD_some]

theorem array_set_other (st : GroupState) (ref ref2 : Nat) (l : List Nat) (h : ref ≠ ref2) :
    (st.arrays.set ref l).getD ref2 [] = st.arrays.getD ref2 [] := by
  simp only [List.getD_eq_getElem?_getD, List.getElem?_set_ne h]

/-- C15 (counterexample): after the group `[1, 2, 3]` is installed and window 1 is
removed, the group of window 2 (and of window 3) is `[2, 3]`: it has two
elements, because a group contains the window itself. -/
theorem removeTileGroup_three_self_inclusive :
    groupOf (removeTileGroup (updateTileGroupNew GroupState.initial [1, 2, 3]) 1) 2 = [2, 3] ∧
    groupOf (removeTileGroup (updateTileGroupNew GroupState.initial [1, 2, 3]) 1) 3 = [2, 3] ∧
    (groupOf (removeTileGroup (updateTileGroupNew GroupState.initial [1, 2, 3]) 1) 2).length
      ≠ 1 := by
  decide

/-- C15 (amended): for three distinct windows installed as a group by
`updateTileGroup` (in any state), after `removeTileGroup` on one of them the
removed window has no group and each of the other two has the group made of the
two remaining windows: exactly two elements, itself and the other one. -/
theorem removeTileGroup_three (st : GroupState) (a b c x : Nat)
    (hab : a ≠ b) (hac : a ≠ c) (hbc : b ≠ c) (hx : x ∈ [a, b, c]) :
    (removeTileGroup (updateTileGroupNew st [a, b, c]) x).tileGroup x = none ∧
    ∀ y ∈ [a, b, c], y ≠ x →
      groupOf (removeTileGroup (updateTileGroupNew st [a, b, c]) x) y = [a, b, c].erase x ∧
      ([a, b, c].erase x).length = 2 ∧ y ∈ [a, b, c].erase x := by
  have hnd : [a, b, c].Nodup := by simp [hab, hac, hbc]
  have hlen : st.arrays.length < (updateTileGroupNew st [a, b, c]).arrays.length := by
    rw [updateTileGroupNew_arrays]; simp
  have harr := array_updateTileGroupNew_new st [a, b, c]
  have htg : ∀ v ∈ [a, b, c],
      (updateTileGroupNew st [a, b, c]).tileGroup v = some st.arrays.length := by
    intro v hv
    rw [updateTileGroupNew_tileGroup, if_pos hv]
  obtain ⟨h1, h2⟩ := removeTileGroup_spec (updateTileGroupNew st [a, b, c]) x st.arrays.length
    (htg x hx) hlen (by rw [harr]; exact hx) (by rw [harr]; exact hnd)
    (by rw [harr]; exact htg)
  refine ⟨by rw [h2]; simp, ?_⟩
  intro y hy hyx
  have hg : groupOf (removeTileGroup (updateTileGroupNew st [a, b, c]) x) y
      = [a, b, c].erase x := by
    unfold groupOf
    rw [h2, Function.update_noteq hyx, htg y hy]
    simp only [GroupState.array]
    rw [h1, array_set_self _ _ _ hlen, harr]
  refine ⟨hg, ?_, (List.Nodup.mem_erase_iff hnd).mpr ⟨hyx, hy⟩⟩
  rw [List.length_erase_of_mem hx]
  rfl

/-- Witness of C15 (amended): the group `[1, 2, 3]`, window 2 removed. -/
theorem removeTileGroup_three_witness :
    (removeTileGroup (updateTileGroupNew GroupState.initial [1, 2, 3]) 2).tileGroup 2 = none ∧
    ∀ y ∈ [1, 2, 3], y ≠ 2 →
      groupOf (removeTileGroup (updateTileGroupNew GroupState.initial [1, 2, 3]) 2) y
        = [1, 2, 3].erase 2 ∧
      ([1, 2, 3].erase 2).length = 2 ∧ y ∈ [1, 2, 3].erase 2 :=
  removeTileGroup_three GroupState.initial 1 2 3 2 (by decide) (by decide) (by decide)
    (by decide)

theorem removeTileGroup_tileGroup_self (st : GroupState) (w : Nat) :
    (removeTileGroup st w).tileGroup w = none := by
  cases h : st.tileGroup w with
  | none =>
    unfold removeTileGroup
    simp only [h]
  | some ref =>
    unfold removeTileGroup
    simp only [h, Function.update_same]

/-- C16: `removeTileGroup` is idempotent: for every state and window, calling it
twice gives exactly the state of calling it once; and on a window that has no
group (`tileGroup` unset) it leaves the whole state, groups and handlers
included, unchanged. -/
theorem removeTileGroup_idempotent (st : GroupState) (w : Nat) :
    removeTileGroup (removeTileGroup st w) w = removeTileGroup st w ∧
    (st.tileGroup w = none → removeTileGroup st w = st) := by
  have hnone : ∀ s : GroupState, s.tileGroup w = none → removeTileGroup s w = s := by
    intro s hs
    unfold removeTileGroup
    simp only [hs]
  exact ⟨hnone _ (removeTileGroup_tileGroup_self st w), hnone st⟩

/-- C17 (counterexample): after `updateTileGroup([1, 2])` and then
`updateTileGroup([3, 1])`, window 1 is in the group of window 2 (its old array is
still `[1, 2]`) but window 2 is not in the group of window 1 (`[3, 1]`). -/
theorem group_membership_not_symmetric :
    1 ∈ groupOf (runCalls GroupState.initial [.update [1, 2], .update [3, 1]]) 2 ∧
    2 ∉ groupOf (runCalls GroupState.initial [.update [1, 2], .update [3, 1]]) 1 := by
  decide

theorem groupInv_update (st : GroupState) (group : List Nat) (hinv : GroupInv st)
    (hnd : group.Nodup) (hclosed : ∀ w ∈ group, ∀ v ∈ groupOf st w, v ∈ group) :
    GroupInv (updateTileGroupNew st group) := by
  intro w ref hw
  rw [updateTileGroupNew_tileGroup] at hw
  have hlen : (updateTileGroupNew st group).arrays.length = st.arrays.length + 1 := by
    rw [updateTileGroupNew_arrays]; simp
  split_ifs at hw with hmem
  · simp only [Option.some.injEq] at hw
    subst hw
    rw [array_updateTileGroupNew_new]
    refine ⟨by omega, hmem, hnd, ?_⟩
    intro v hv
    rw [updateTileGroupNew_tileGroup, if_pos hv]
  · obtain ⟨h1, h2, h3, h4⟩ := hinv w ref hw
    rw [array_updateTileGroupNew_old st group ref h1]
    refine ⟨by omega, h2, h3, ?_⟩
    intro v hv
    rw [updateTileGroupNew_tileGroup]
    have hvg : v ∉ group := by
      intro hvg
      apply hmem
      apply hclosed v hvg w
      unfold groupOf
      rw [h4 v hv]
      exact h2
    rw [if_neg hvg]
    exact h4 v hv

theorem groupInv_remove (st : GroupState) (x : Nat) (hinv : GroupInv st) :
    GroupInv (removeTileGroup st x) := by
  cases hx : st.tileGroup x with
  | none =>
    have : removeTileGroup st x = st := by
      unfold removeTileGroup
      simp only [hx]
    rw [this]
    exact hinv
  | some ref =>
    obtain ⟨h1, h2, h3, h4⟩ := hinv x ref hx
    obtain ⟨ha, ht⟩ := removeTileGroup_spec st x ref hx h1 h2 h3 h4
    intro w ref2 hw
    rw [ht] at hw
    have hwx : w ≠ x := by
      intro h
      subst h
      simp at hw
    rw [Function.update_noteq hwx] at hw
    obtain ⟨g1, g2, g3, g4⟩ := hinv w ref2 hw
    have hlen : (removeTileGroup st x).arrays.length = st.arrays.length := by
      rw [ha]; simp
    by_cases hr : ref = ref2
    · subst hr
      have harr : (removeTileGroup st x).array ref = (st.array ref).erase x := by
        unfold GroupState.array
        rw [ha]
        exact array_set_self st ref _ h1
      rw [harr, ht]
      refine ⟨by omega, (List.Nodup.mem_erase_iff h3).mpr ⟨hwx, g2⟩, h3.erase x, ?_⟩
      intro v hv
      obtain ⟨hvx, hvm⟩ := (List.Nodup.mem_erase_iff h3).mp hv
      rw [Function.update_noteq hvx]
      exact h4 v hvm
    · have harr : (removeTileGroup st x).array ref2 = st.array ref2 := by
        unfold GroupState.array
        rw [ha]
        exact array_set_other st ref ref2 _ hr
      rw [harr, ht]
      refine ⟨by omega, g2, g3, ?_⟩
      intro v hv
      have hvx : v ≠ x := by
        intro h
        subst h
        rw [g4 v hv] at hx
        simp only [Option.some.injEq] at hx
        exact hr hx.symm
      rw [Function.update_noteq hvx]
      exact g4 v hv

theorem groupInv_runCalls (calls : List GroupCall) :
    ∀ st : GroupState, GroupInv st → ClosedCalls st calls → GroupInv (runCalls st calls) := by
  induction calls with
  | nil => intro st h _; exact h
  | cons c cs ih =>
    intro st hinv hc
    obtain ⟨h1, h2⟩ := hc
    unfold runCalls
    rw [List.foldl_cons]
    apply ih _ _ h2
    cases c with
    | update group => exact groupInv_update st group hinv h1.1 h1.2
    | remove window => exact groupInv_remove st window hinv

/-- C17 (amended): starting from a state in which no window has a group, after
every finite sequence of `updateTileGroup` and `removeTileGroup` calls in which
each `updateTileGroup` is given distinct windows that include, with each window
that has a group at that moment, all members of that group, membership is
symmetric: if `a` is in the group of `b` then `b` is in the group of `a`. -/
theorem group_membership_symmetric (st0 : GroupState) (h0 : ∀ w, st0.tileGroup w = none)
    (calls : List GroupCall) (hc : ClosedCalls st0 calls) (a b : Nat)
    (h : a ∈ groupOf (runCalls st0 calls) b) : b ∈ groupOf (runCalls st0 calls) a := by
  have hinv : GroupInv (runCalls st0 calls) :=
    groupInv_runCalls calls st0 (fun w ref hw => by rw [h0 w] at hw; simp at hw) hc
  unfold groupOf at h ⊢
  cases hb : (runCalls st0 calls).tileGroup b with
  | none => rw [hb] at h; simp at h
  | some ref =>
    rw [hb] at h
    simp only at h
    obtain ⟨-, h2, -, h4⟩ := hinv b ref hb
    rw [h4 a h]
    exact h2

/-- Witness of C17 (amended): a group of three, one removed, regrouped with a fourth
window, which is removed again. -/
theorem group_membership_symmetric_witness :
    2 ∈ groupOf (runCalls GroupState.initial
      [.update [1, 2, 3], .remove 3, .update [4, 1, 2], .remove 4]) 1 ∧
    1 ∈ groupOf (runCalls GroupState.initial
      [.update [1, 2, 3], .remove 3, .update [4, 1, 2], .remove 4]) 2 :=
  ⟨by decide, group_membership_symmetric GroupState.initial (fun _ => rfl)
    [.update [1, 2, 3], .remove 3, .update [4, 1, 2], .remove 4]
    (by
      refine ⟨⟨by decide, ?_⟩, trivial, ⟨by decide, ?_⟩, trivial, trivial⟩
      · intro w _ v hv
        simp [groupOf, GroupState.initial] at hv
      · intro w hw v hv
        simp only [List.mem_cons, List.mem_singleton, List.not_mem_nil, or_false] at hw
        rcases hw with rfl | rfl | rfl
        · have : groupOf (GroupCall.run (GroupCall.run GroupState.initial
              (.update [1, 2, 3])) (.remove 3)) 4 = [] := by decide
          rw [this] at hv
          simp at hv
        · have : groupOf (GroupCall.run (GroupCall.run GroupState.initial
              (.update [1, 2, 3])) (.remove 3)) 1 = [1, 2] := by decide
          rw [this] at hv
          simp only [List.mem_cons, List.mem_singleton, List.not_mem_nil, or_false] at hv
          rcases hv with rfl | rfl <;> simp
        · have : groupOf (GroupCall.run (GroupCall.run GroupState.initial
              (.update [1, 2, 3])) (.remove 3)) 2 = [1, 2] := by decide
          rw [this] at hv
          simp only [List.mem_cons, List.mem_singleton, List.not_mem_nil, or_false] at hv
          rcases hv with rfl | rfl <;> simp)
    2 1 (by decide)⟩

/-! ## Tiling operations -/

theorem tileWindow_eq (env : Env) (st : TileState) (resp : WMResponse) (w : Nat)
    (newRect : Rect) (check : Bool) :
    tileWindow env st resp (some w) (some newRect) check
      = if (!(unmaximizeIfMaximized st resp w).allowsResize w ||
            !(unmaximizeIfMaximized st resp w).allowsMove w) = true then
          unmaximizeIfMaximized st resp w
        else
          tileWindowGroup env
            (tileWindowFields env (unmaximizeIfMaximized st resp w) resp w newRect) resp w check :=
  rfl

theorem tileWindow_eq_noRect (env : Env) (st : TileState) (resp : WMResponse) (w : Nat)
    (check : Bool) :
    tileWindow env st resp (some w) none check
      = if (!(unmaximizeIfMaximized st resp w).allowsResize w ||
            !(unmaximizeIfMaximized st resp w).allowsMove w) = true then
          unmaximizeIfMaximized st resp w
        else
          { tileWindowSaved (unmaximizeIfMaximized st resp w) w with faulted := true } :=
  rfl

theorem unmaximizeIfMaximized_window (st : TileState) (resp : WMResponse) (w : Nat) :
    (unmaximizeIfMaximized st resp w).window w
      = if (st.window w).maximized ≠ 0 then
          { st.window w with maximized := 0, frameRect := resp.frameAfterUnmaximize }
        else st.window w := by
  unfold unmaximizeIfMaximized
  split_ifs <;> simp [TileState.setWindow, TileState.request]

theorem unmaximizeIfMaximized_other (st : TileState) (resp : WMResponse) (w v : Nat)
    (hv : v ≠ w) : (unmaximizeIfMaximized st resp w).window v = st.window v := by
  unfold unmaximizeIfMaximized
  split_ifs <;> simp [TileState.setWindow, TileState.request, Function.update_noteq hv]

theorem unmaximizeIfMaximized_caps (st : TileState) (resp : WMResponse) (w : Nat) :
    (unmaximizeIfMaximized st resp w).allowsMove = st.allowsMove ∧
    (unmaximizeIfMaximized st resp w).allowsResize = st.allowsResize := by
  unfold unmaximizeIfMaximized
  split_ifs <;> exact ⟨rfl, rfl⟩

theorem unmaximizeIfMaximized_tiling (st : TileState) (resp : WMResponse) (w v : Nat) :
    ((unmaximizeIfMaximized st resp w).window v).isTiled = (st.window v).isTiled ∧
    ((unmaximizeIfMaximized st resp w).window v).tiledRect = (st.window v).tiledRect := by
  by_cases hv : v = w
  · subst hv
    rw [unmaximizeIfMaximized_window]
    split_ifs <;> exact ⟨rfl, rfl⟩
  · rw [unmaximizeIfMaximized_other st resp w v hv]
    exact ⟨rfl, rfl⟩

theorem tileWindowGroup_fields (env : Env) (st : TileState) (resp : WMResponse) (w : Nat)
    (check : Bool) :
    (tileWindowGroup env st resp w check).window = st.window ∧
    (tileWindowGroup env st resp w check).allowsMove = st.allowsMove ∧
    (tileWindowGroup env st resp w check).allowsResize = st.allowsResize ∧
    (tileWindowGroup env st resp w check).requests = st.requests := by
  unfold tileWindowGroup
  split
  · exact ⟨rfl, rfl, rfl, rfl⟩
  · unfold onWindowTiled
    split_ifs <;> exact ⟨rfl, rfl, rfl, rfl⟩

theorem tileWindowFields_other (env : Env) (st : TileState) (resp : WMResponse) (w v : Nat)
    (newRect : Rect) (hv : v ≠ w) :
    (tileWindowFields env st resp w newRect).window v = st.window v := by
  unfold tileWindowFields
  simp only [TileState.setWindow, TileState.request]
  split_ifs <;> simp [Function.update_noteq hv]

theorem tileWindowFields_self (env : Env) (st : TileState) (resp : WMResponse) (w : Nat)
    (newRect : Rect) :
    (tileWindowFields env st resp w newRect).window w
      = { st.window w with
          isTiled := some ((st.window w).isTiled.getD (st.window w).frameRect)
          tiledRect := some newRect
          frameRect := resp.frameAfterMoveResize } := by
  unfold tileWindowFields
  simp only [TileState.setWindow, TileState.request]
  cases h : (st.window w).isTiled <;> split_ifs <;> simp_all

theorem tileWindowFields_caps (env : Env) (st : TileState) (resp : WMResponse) (w : Nat)
    (newRect : Rect) :
    (tileWindowFields env st resp w newRect).allowsMove = st.allowsMove ∧
    (tileWindowFields env st resp w newRect).allowsResize = st.allowsResize := by
  unfold tileWindowFields
  simp only [TileState.setWindow, TileState.request]
  split_ifs <;> exact ⟨rfl, rfl⟩


theorem tileWindow_other (env : Env) (st : TileState) (resp : WMResponse) (w v : Nat)
    (newRect : Rect) (check : Bool) (hv : v ≠ w) :
    (tileWindow env st resp (some w) (some newRect) check).window v = st.window v := by
  rw [tileWindow_eq]
  split_ifs
  · exact unmaximizeIfMaximized_other st resp w v hv
  · rw [(tileWindowGroup_fields env _ resp w check).1, tileWindowFields_other env _ resp w v _ hv]
    exact unmaximizeIfMaximized_other st resp w v hv

theorem tileWindow_caps (env : Env) (st : TileState) (resp : WMResponse) (w : Nat)
    (newRect : Rect) (check : Bool) :
    (tileWindow env st resp (some w) (some newRect) check).allowsMove = st.allowsMove ∧
    (tileWindow env st resp (some w) (some newRect) check).allowsResize = st.allowsResize := by
  rw [tileWindow_eq]
  split_ifs
  · exact unmaximizeIfMaximized_caps st resp w
  · obtain ⟨-, h2, h3, -⟩ := tileWindowGroup_fields env
      (tileWindowFields env (unmaximizeIfMaximized st resp w) resp w newRect) resp w check
    obtain ⟨h4, h5⟩ := tileWindowFields_caps env (unmaximizeIfMaximized st resp w) resp w newRect
    obtain ⟨h6, h7⟩ := unmaximizeIfMaximized_caps st resp w
    exact ⟨by rw [h2, h4, h6], by rw [h3, h5, h7]⟩

/-- The object of a movable, resizable window after `tileWindow`. -/
theorem tileWindow_self (env : Env) (st : TileState) (resp : WMResponse) (w : Nat)
    (newRect : Rect) (check : Bool) (hm : st.allowsMove w = true) (hr : st.allowsResize w = true) :
    (tileWindow env st resp (some w) (some newRect) check).window w
      = { (unmaximizeIfMaximized st resp w).window w with
          isTiled := some (((unmaximizeIfMaximized st resp w).window w).isTiled.getD
            ((unmaximizeIfMaximized st resp w).window w).frameRect)
          tiledRect := some newRect
          frameRect := resp.frameAfterMoveResize } := by
  rw [tileWindow_eq]
  obtain ⟨h6, h7⟩ := unmaximizeIfMaximized_caps st resp w
  rw [if_neg (by simp [h6, h7, hm, hr])]
  rw [(tileWindowGroup_fields env _ resp w check).1, tileWindowFields_self]

theorem tileWindow_wellFormed (env : Env) (st : TileState) (resp : WMResponse)
    (window : Option Nat) (newRect : Rect) (check : Bool) (v : Nat) :
    ((st.window v).WellFormed →
      ((tileWindow env st resp window (some newRect) check).window v).WellFormed) ∧
    ((st.window v).TiledIff →
      ((tileWindow env st resp window (some newRect) check).window v).TiledIff) := by
  cases window with
  | none => exact ⟨id, id⟩
  | some w =>
    by_cases hv : v = w
    · subst hv
      obtain ⟨h1, h2⟩ := unmaximizeIfMaximized_tiling st resp v v
      rw [tileWindow_eq]
      split_ifs
      · unfold Window.WellFormed Window.TiledIff
        rw [h1, h2]
        exact ⟨id, id⟩
      · rw [(tileWindowGroup_fields env _ resp v check).1, tileWindowFields_self]
        exact ⟨fun _ _ => rfl, fun _ => rfl⟩
    · rw [tileWindow_other env st resp w v newRect check hv]
      exact ⟨id, id⟩

/-- The object of a movable, resizable window after `tileWindow` called without
a rectangle: `isTiled` is set when it was unset, nothing else changes but what
the unmaximize changed; the call faults. -/
theorem tileWindow_noRect_self (env : Env) (st : TileState) (resp : WMResponse) (w : Nat)
    (check : Bool) (hm : st.allowsMove w = true) (hr : st.allowsResize w = true) :
    (tileWindow env st resp (some w) none check).faulted = true ∧
    (tileWindow env st resp (some w) none check).window w
      = { (unmaximizeIfMaximized st resp w).window w with
          isTiled := some (((unmaximizeIfMaximized st resp w).window w).isTiled.getD
            ((unmaximizeIfMaximized st resp w).window w).frameRect) } := by
  rw [tileWindow_eq_noRect]
  obtain ⟨h6, h7⟩ := unmaximizeIfMaximized_caps st resp w
  rw [if_neg (by simp [h6, h7, hm, hr])]
  refine ⟨rfl, ?_⟩
  unfold tileWindowSaved
  simp only [TileState.setWindow, TileState.request]
  cases h : ((unmaximizeIfMaximized st resp w).window w).isTiled with
  | none => simp
  | some F =>
    simp only [Option.isNone_some, Bool.false_eq_true, if_false, Option.getD_some]
    rw [← h]

theorem maximizeBoth_wellFormed (st : TileState) (resp : WMResponse) (window : Option Nat)
    (v : Nat) (h : (st.window v).WellFormed) :
    ((maximizeBoth st resp window).window v).WellFormed := by
  cases window with
  | none => exact h
  | some w =>
    unfold maximizeBoth
    simp only
    split_ifs
    · exact h
    · by_cases hv : v = w
      · subst hv
        simp [TileState.setWindow, TileState.request, Window.WellFormed]
      · simpa [TileState.setWindow, TileState.request, Function.update_noteq hv] using h

theorem restoreWindowSize_wellFormed (st : TileState) (resp : WMResponse) (w : Nat)
    (full : Bool) (v : Nat) :
    ((st.window v).WellFormed → ((restoreWindowSize st resp w full).window v).WellFormed) ∧
    ((st.window v).TiledIff → ((restoreWindowSize st resp w full).window v).TiledIff) := by
  obtain ⟨h1, h2⟩ := unmaximizeIfMaximized_tiling st resp w v
  have hkeep : ((unmaximizeIfMaximized st resp w).window v).WellFormed
        = (st.window v).WellFormed ∧
      ((unmaximizeIfMaximized st resp w).window v).TiledIff = (st.window v).TiledIff := by
    unfold Window.WellFormed Window.TiledIff
    rw [h1, h2]
    exact ⟨rfl, rfl⟩
  unfold restoreWindowSize
  simp only
  split
  · rw [hkeep.1, hkeep.2]
    exact ⟨id, id⟩
  · split_ifs
    · rw [hkeep.1, hkeep.2]
      exact ⟨id, id⟩
    · by_cases hv : v = w
      · subst hv
        simp [TileState.setWindow, TileState.request, Window.WellFormed, Window.TiledIff]
      · simp only [TileState.setWindow, TileState.request, Function.update_noteq hv]
        rw [hkeep.1, hkeep.2]
        exact ⟨id, id⟩
    · by_cases hv : v = w
      · subst hv
        simp [TileState.setWindow, TileState.request, Window.WellFormed, Window.TiledIff]
      · simp only [TileState.setWindow, TileState.request, Function.update_noteq hv]
        rw [hkeep.1, hkeep.2]
        exact ⟨id, id⟩

/-- C18 (counterexample): `maximizeBoth` on a movable, resizable, untiled window
sets `tiledRect` to the work area and leaves `isTiled` (the rectangle saved before
tiling) unset, so "set together" holds before and fails after. -/
theorem maximizeBoth_breaks_iff :
    (sampleTileState.window 7).tiledRect.isSome = (sampleTileState.window 7).isTiled.isSome ∧
    sampleTileState.allowsMove 7 = true ∧ sampleTileState.allowsResize 7 = true ∧
    ((maximizeBoth sampleTileState sampleResponse (some 7)).window 7).tiledRect
      = some ⟨0, 0, 1920, 1080⟩ ∧
    ((maximizeBoth sampleTileState sampleResponse (some 7)).window 7).isTiled = none ∧
    ¬ ((maximizeBoth sampleTileState sampleResponse (some 7)).window 7).TiledIff := by
  unfold Window.TiledIff
  decide

/-- C18 (amended): "if `isTiled` (the rectangle saved before tiling) is set then
`tiledRect` is set" holds for every untiled window and, when it holds for all
windows, it holds for all windows after each of `tileWindow` called with a
target rectangle, `maximizeBoth` and `restoreWindowSize` (whatever the window
may do); "both set or both unset" is preserved by `tileWindow` called with a
target rectangle and by `restoreWindowSize`.  `tileWindow` called without a
rectangle on a movable, resizable window whose `tiledRect` is unset preserves
neither: it faults after it has saved the frame rectangle in `isTiled`, and
`tiledRect` stays unset. -/
theorem tiling_fields_invariant (env : Env) (st : TileState) (resp : WMResponse)
    (window : Option Nat) (w : Nat) (newRect : Rect) (check full : Bool)
    (hwf : ∀ v, (st.window v).WellFormed) :
    (∀ v, ((tileWindow env st resp window (some newRect) check).window v).WellFormed) ∧
    (∀ v, ((maximizeBoth st resp window).window v).WellFormed) ∧
    (∀ v, ((restoreWindowSize st resp w full).window v).WellFormed) ∧
    ((∀ v, (st.window v).TiledIff) →
      (∀ v, ((tileWindow env st resp window (some newRect) check).window v).TiledIff) ∧
      (∀ v, ((restoreWindowSize st resp w full).window v).TiledIff)) ∧
    (∀ u : Window, u.isTiled = none → u.WellFormed) ∧
    (st.allowsMove w = true → st.allowsResize w = true → (st.window w).tiledRect = none →
      (tileWindow env st resp (some w) none check).faulted = true ∧
      ((tileWindow env st resp (some w) none check).window w).isTiled
        = some ((unmaximizeIfMaximized st resp w).window w).frameRect ∧
      ((tileWindow env st resp (some w) none check).window w).tiledRect = none ∧
      ¬ ((tileWindow env st resp (some w) none check).window w).WellFormed ∧
      ¬ ((tileWindow env st resp (some w) none check).window w).TiledIff) :=
  ⟨fun v => (tileWindow_wellFormed env st resp window newRect check v).1 (hwf v),
    fun v => maximizeBoth_wellFormed st resp window v (hwf v),
    fun v => (restoreWindowSize_wellFormed st resp w full v).1 (hwf v),
    fun hiff => ⟨fun v => (tileWindow_wellFormed env st resp window newRect check v).2 (hiff v),
      fun v => (restoreWindowSize_wellFormed st resp w full v).2 (hiff v)⟩,
    fun u hu h => by rw [hu] at h; simp at h,
    fun hm hr ht => by
      obtain ⟨h1, h2⟩ := unmaximizeIfMaximized_tiling st resp w w
      have hnone : (st.window w).isTiled = none := by
        have h := hwf w
        unfold Window.WellFormed at h
        rw [ht] at h
        cases hi : (st.window w).isTiled with
        | none => rfl
        | some F => rw [hi] at h; simp at h
      obtain ⟨f1, f2⟩ := tileWindow_noRect_self env st resp w check hm hr
      unfold Window.WellFormed Window.TiledIff
      rw [f2]
      refine ⟨f1, ?_, ?_, ?_, ?_⟩ <;> simp [h1, h2, hnone, ht]⟩

/-- Witness of C18 (amended): `maximizeBoth` on the sample state, and `tileWindow`
without a rectangle on the sample state. -/
theorem tiling_fields_invariant_witness :
    (∀ v, (sampleTileState.window v).WellFormed) ∧
    ((maximizeBoth sampleTileState sampleResponse (some 7)).window 7).WellFormed ∧
    ((tileWindow sampleEnv sampleTileState sampleResponse (some 7) none true).window 7).isTiled
      = some ⟨100, 100, 800, 600⟩ ∧
    ((tileWindow sampleEnv sampleTileState sampleResponse (some 7) none true).window 7).tiledRect
      = none :=
  have h : ∀ v, (sampleTileState.window v).WellFormed := fun _ hv => by
    simp [sampleTileState, plainWindow] at hv
  have k := tiling_fields_invariant sampleEnv sampleTileState sampleResponse (some 7) 7
    ⟨0, 0, 960, 1080⟩ true true h
  ⟨h, k.2.1 7, (k.2.2.2.2.2 rfl rfl rfl).2.1, (k.2.2.2.2.2 rfl rfl rfl).2.2.1⟩

/-- After a call of `tileWindow` on a window that may be moved and resized, is
not maximized and has `isTiled` unset or set to `F` while its frame is `F`, the
window is not maximized and `isTiled` is `F`. -/
theorem tileWindow_keeps_preTileRect (env : Env) (st : TileState) (w : Nat) (F : Rect)
    (c : TileCall) (hm : st.allowsMove w = true) (hr : st.allowsResize w = true)
    (hmax : (st.window w).maximized = 0)
    (ht : (st.window w).isTiled = some F ∨
      ((st.window w).isTiled = none ∧ (st.window w).frameRect = F)) :
    (tileWindow env st c.resp (some w) (some c.newRect) c.checkToOpenDash).allowsMove w = true ∧
    (tileWindow env st c.resp (some w) (some c.newRect) c.checkToOpenDash).allowsResize w = true ∧
    ((tileWindow env st c.resp (some w) (some c.newRect) c.checkToOpenDash).window w).maximized = 0 ∧
    ((tileWindow env st c.resp (some w) (some c.newRect) c.checkToOpenDash).window w).isTiled
      = some F := by
  obtain ⟨c1, c2⟩ := tileWindow_caps env st c.resp w c.newRect c.checkToOpenDash
  have hu : (unmaximizeIfMaximized st c.resp w).window w = st.window w := by
    rw [unmaximizeIfMaximized_window, if_neg (by simp [hmax])]
  rw [tileWindow_self env st c.resp w c.newRect c.checkToOpenDash hm hr, hu, c1, c2]
  refine ⟨hm, hr, hmax, ?_⟩
  rcases ht with h | ⟨h, hF⟩
  · simp [h]
  · simp [h, hF]

theorem runTileCalls_keeps_preTileRect (env : Env) (w : Nat) (F : Rect)
    (calls : List TileCall) :
    ∀ st : TileState, st.allowsMove w = true → st.allowsResize w = true →
      (st.window w).maximized = 0 → (st.window w).isTiled = some F →
      (runTileCalls env st w calls).allowsMove w = true ∧
      (runTileCalls env st w calls).allowsResize w = true ∧
      ((runTileCalls env st w calls).window w).maximized = 0 ∧
      ((runTileCalls env st w calls).window w).isTiled = some F := by
  induction calls with
  | nil => intro st h1 h2 h3 h4; exact ⟨h1, h2, h3, h4⟩
  | cons c cs ih =>
    intro st h1 h2 h3 h4
    obtain ⟨g1, g2, g3, g4⟩ := tileWindow_keeps_preTileRect env st w F c h1 h2 h3 (Or.inl h4)
    unfold runTileCalls
    rw [List.foldl_cons]
    exact ih _ g1 g2 g3 g4

/-- C19: for a movable, resizable, non-maximized, untiled window with frame
rectangle `F` and every non-empty sequence of `tileWindow` calls on it (any
target rectangles, any answers of the window manager), `isTiled` is `F`
afterwards and `restoreWindowSize(window, true)` makes exactly one request, a
move/resize to `F`. -/
theorem restore_after_tiles (env : Env) (st : TileState) (w : Nat) (F : Rect)
    (calls : List TileCall) (resp : WMResponse) (hne : calls ≠ [])
    (hm : st.allowsMove w = true) (hr : st.allowsResize w = true)
    (hmax : (st.window w).maximized = 0) (hun : (st.window w).isTiled = none)
    (hF : (st.window w).frameRect = F) :
    ((runTileCalls env st w calls).window w).isTiled = some F ∧
    (restoreWindowSize (runTileCalls env st w calls) resp w true).requests
      = (runTileCalls env st w calls).requests ++ [Request.moveResizeFrame w false F] := by
  cases calls with
  | nil => exact absurd rfl hne
  | cons c cs =>
    obtain ⟨g1, g2, g3, g4⟩ :=
      tileWindow_keeps_preTileRect env st w F c hm hr hmax (Or.inr ⟨hun, hF⟩)
    have hrun : runTileCalls env st w (c :: cs)
        = runTileCalls env (tileWindow env st c.resp (some w) (some c.newRect) c.checkToOpenDash) w
            cs := rfl
    obtain ⟨k1, k2, k3, k4⟩ := runTileCalls_keeps_preTileRect env w F cs _ g1 g2 g3 g4
    rw [hrun]
    refine ⟨k4, ?_⟩
    have hu : unmaximizeIfMaximized (runTileCalls env
        (tileWindow env st c.resp (some w) (some c.newRect) c.checkToOpenDash) w cs) resp w
        = runTileCalls env (tileWindow env st c.resp (some w) (some c.newRect) c.checkToOpenDash) w
            cs := by
      unfold unmaximizeIfMaximized
      rw [if_neg (by simp [k3])]
    unfold restoreWindowSize
    simp only [hu, k4, k1, k2]
    rfl

/-- Witness of C19: tiled to the left half, then to the right half, then restored. -/
theorem restore_after_tiles_witness :
    (restoreWindowSize (runTileCalls sampleEnv sampleTileState 7
        [⟨⟨0, 0, 960, 1080⟩, sampleResponse, true⟩, ⟨⟨960, 0, 960, 1080⟩, sampleResponse, true⟩])
        sampleResponse 7 true).requests
      = (runTileCalls sampleEnv sampleTileState 7
          [⟨⟨0, 0, 960, 1080⟩, sampleResponse, true⟩,
            ⟨⟨960, 0, 960, 1080⟩, sampleResponse, true⟩]).requests
          ++ [Request.moveResizeFrame 7 false ⟨100, 100, 800, 600⟩] :=
  (restore_after_tiles sampleEnv sampleTileState 7 ⟨100, 100, 800, 600⟩
    [⟨⟨0, 0, 960, 1080⟩, sampleResponse, true⟩, ⟨⟨960, 0, 960, 1080⟩, sampleResponse, true⟩]
    sampleResponse (by simp) rfl rfl rfl rfl rfl).2

/-! ## Complementary resize -/

theorem forall₂_map_of_forall {α β : Type} (P : α → β → Prop) (f : α → β) (l : List α)
    (h : ∀ a ∈ l, P a (f a)) : List.Forall₂ P l (l.map f) := by
  induction l with
  | nil => exact List.Forall₂.nil
  | cons a l ih =>
    exact List.Forall₂.cons (h a (List.mem_cons_self _ _))
      (ih fun b hb => h b (List.mem_cons_of_mem _ hb))

/-- C20: for each direction N, S, E, W, every gap and every resized window, the
requests are those for the same-side neighbours followed by those for the
opposing neighbours, one per neighbour in order; the frame requested for a
same-side neighbour has its edge on the side of the drag equal to that edge of
the resized window, and the frame requested for an opposing neighbour has its
facing edge `2 * gap` beyond it (for W the requested width is
`resized.x - neighbour.x - 2 * gap`). -/
theorem resizeComplementingWindows_edges (resized : ResizedWindow) (gap : Int) :
    (∃ same opp, resizeComplementingWindows resized .RESIZING_N gap = same ++ opp ∧
      List.Forall₂ (fun w q => ∃ r, Requested w r q ∧ r.y = resized.frameRect.y)
        resized.sameSideWindows same ∧
      List.Forall₂ (fun w q => ∃ r, Requested w r q ∧
          r.y + r.height = resized.frameRect.y - 2 * gap)
        resized.opposingWindows opp) ∧
    (∃ same opp, resizeComplementingWindows resized .RESIZING_S gap = same ++ opp ∧
      List.Forall₂ (fun w q => ∃ r, Requested w r q ∧
          r.y + r.height = resized.frameRect.y + resized.frameRect.height)
        resized.sameSideWindows same ∧
      List.Forall₂ (fun w q => ∃ r, Requested w r q ∧
          r.y = resized.frameRect.y + resized.frameRect.height + 2 * gap)
        resized.opposingWindows opp) ∧
    (∃ same opp, resizeComplementingWindows resized .RESIZING_E gap = same ++ opp ∧
      List.Forall₂ (fun w q => ∃ r, Requested w r q ∧
          r.x + r.width = resized.frameRect.x + resized.frameRect.width)
        resized.sameSideWindows same ∧
      List.Forall₂ (fun w q => ∃ r, Requested w r q ∧
          r.x = resized.frameRect.x + resized.frameRect.width + 2 * gap)
        resized.opposingWindows opp) ∧
    (∃ same opp, resizeComplementingWindows resized .RESIZING_W gap = same ++ opp ∧
      List.Forall₂ (fun w q => ∃ r, Requested w r q ∧ r.x = resized.frameRect.x)
        resized.sameSideWindows same ∧
      List.Forall₂ (fun w q => ∃ r, Requested w r q ∧
          r.x + r.width = resized.frameRect.x - 2 * gap ∧
          r.width = resized.frameRect.x - w.frameRect.x - 2 * gap)
        resized.opposingWindows opp) := by
  refine ⟨⟨_, _, rfl, ?_, ?_⟩, ⟨_, _, rfl, ?_, ?_⟩, ⟨_, _, rfl, ?_, ?_⟩, ⟨_, _, rfl, ?_, ?_⟩⟩
  all_goals
    apply forall₂_map_of_forall
    intro w _
    refine ⟨_, rfl, ?_⟩
    first
      | rfl
      | (simp only; omega)
      | exact ⟨by simp only; omega, rfl⟩

/-- The example of C20: a West drag to x = 450 with gap 10 requests width 430 for the
opposing neighbour at x = 0. -/
theorem resizeComplementingWindows_west_example :
    resizeComplementingWindows
        ⟨⟨450, 0, 550, 800⟩, [], [⟨1, ⟨0, 0, 500, 800⟩, ⟨0, 0, 500, 800⟩⟩]⟩ .RESIZING_W 10
      = [Request.moveResizeFrame 1 false ⟨0, 0, 430, 800⟩] := by
  decide

/-! ## Fixed edges of a resize, approximate equality, faults and the mirror law -/

/-- C21 (counterexample): on a North drag the opposing neighbour (above the
resized window) has current frame `{0,5,1000,380}` and `preGrabRect`
`{0,0,1000,400}`; its far edge is its top edge, and the requested frame keeps the
top edge of the current frame, 5, not that of `preGrabRect`, 0. -/
theorem resizeComplementingWindows_far_edge_current :
    resizeComplementingWindows
        ⟨⟨0, 400, 1000, 400⟩, [], [⟨1, ⟨0, 5, 1000, 380⟩, ⟨0, 0, 1000, 400⟩⟩]⟩ .RESIZING_N 10
      = [Request.moveResizeFrame 1 false ⟨0, 5, 1000, 375⟩] ∧
    (⟨0, 5, 1000, 375⟩ : Rect).y ≠ (⟨0, 0, 1000, 400⟩ : Rect).y := by
  decide

/-- C21 (amended): for each direction N, S, E, W, every gap, every neighbour and
every current frame rectangle of it, the requested frame has its fixed far edge
equal to that edge of `preGrabRect` when the far edge is a bottom or right edge
(same-side neighbours for N and W, opposing neighbours for S and E) and equal to
that edge of the current frame rectangle when it is a top or left edge (opposing
neighbours for N and W, same-side neighbours for S and E); position and extent
on the perpendicular axis are those of the current frame rectangle. -/
theorem resizeComplementingWindows_fixed_edges (resized : ResizedWindow) (gap : Int) :
    (∃ same opp, resizeComplementingWindows resized .RESIZING_N gap = same ++ opp ∧
      List.Forall₂ (fun w q => ∃ r, Requested w r q ∧
          r.y + r.height = w.preGrabRect.y + w.preGrabRect.height ∧
          r.x = w.frameRect.x ∧ r.width = w.frameRect.width)
        resized.sameSideWindows same ∧
      List.Forall₂ (fun w q => ∃ r, Requested w r q ∧ r.y = w.frameRect.y ∧
          r.x = w.frameRect.x ∧ r.width = w.frameRect.width)
        resized.opposingWindows opp) ∧
    (∃ same opp, resizeComplementingWindows resized .RESIZING_S gap = same ++ opp ∧
      List.Forall₂ (fun w q => ∃ r, Requested w r q ∧ r.y = w.frameRect.y ∧
          r.x = w.frameRect.x ∧ r.width = w.frameRect.width)
        resized.sameSideWindows same ∧
      List.Forall₂ (fun w q => ∃ r, Requested w r q ∧
          r.y + r.height = w.preGrabRect.y + w.preGrabRect.height ∧
          r.x = w.frameRect.x ∧ r.width = w.frameRect.width)
        resized.opposingWindows opp) ∧
    (∃ same opp, resizeComplementingWindows resized .RESIZING_E gap = same ++ opp ∧
      List.Forall₂ (fun w q => ∃ r, Requested w r q ∧ r.x = w.frameRect.x ∧
          r.y = w.frameRect.y ∧ r.height = w.frameRect.height)
        resized.sameSideWindows same ∧
      List.Forall₂ (fun w q => ∃ r, Requested w r q ∧
          r.x + r.width = w.preGrabRect.x + w.preGrabRect.width ∧
          r.y = w.frameRect.y ∧ r.height = w.frameRect.height)
        resized.opposingWindows opp) ∧
    (∃ same opp, resizeComplementingWindows resized .RESIZING_W gap = same ++ opp ∧
      List.Forall₂ (fun w q => ∃ r, Requested w r q ∧
          r.x + r.width = w.preGrabRect.x + w.preGrabRect.width ∧
          r.y = w.frameRect.y ∧ r.height = w.frameRect.height)
        resized.sameSideWindows same ∧
      List.Forall₂ (fun w q => ∃ r, Requested w r q ∧ r.x = w.frameRect.x ∧
          r.y = w.frameRect.y ∧ r.height = w.frameRect.height)
        resized.opposingWindows opp) := by
  refine ⟨⟨_, _, rfl, ?_, ?_⟩, ⟨_, _, rfl, ?_, ?_⟩, ⟨_, _, rfl, ?_, ?_⟩, ⟨_, _, rfl, ?_, ?_⟩⟩
  all_goals
    apply forall₂_map_of_forall
    intro w _
    refine ⟨_, rfl, ?_, rfl, rfl⟩
    first
      | rfl
      | (simp only; omega)

/-- C22: for all integers `a`, `b` and `margin`, `equalApprox(a, b, margin)` is
true exactly when `|a - b| ≤ margin`; it is symmetric in `a` and `b`,
`equalApprox(a, a, 0)` is true and `equalApprox(a, a + margin + 1, margin)` is
false. -/
theorem equalApprox_spec (a b margin : Int) :
    (equalApprox a b margin = true ↔ |a - b| ≤ margin) ∧
    equalApprox a b margin = equalApprox b a margin ∧
    equalApprox a a 0 = true ∧
    equalApprox a (a + margin + 1) margin = false := by
  refine ⟨?_, ?_, ?_, ?_⟩
  · rw [equalApprox_true_iff, abs_le]
    constructor <;> intro h <;> constructor <;> omega
  · rw [Bool.eq_iff_iff, equalApprox_true_iff, equalApprox_true_iff]
    constructor <;> intro h <;> constructor <;> omega
  · rw [equalApprox_true_iff]
    constructor <;> omega
  · rw [equalApprox_false_iff]
    omega

/-- C23 (the code at a failing input): with `ignoreTopWindow = false` and an
empty list `getTopTileGroup` faults (`openWindows[0]` is `undefined` and
`get_monitor` is called on it), while with `ignoreTopWindow = true` the empty
list gives the empty group; for every other list of well-formed windows a list
is returned. -/
theorem getTopTileGroup_empty_faults (env : Env) :
    getTopTileGroup env (some []) false = none ∧
    getTopTileGroup env (some []) true = some [] ∧
    ∀ (openWindows : List Window) (ignoreTop : Bool),
      (∀ w ∈ openWindows, w.WellFormed) → (ignoreTop = false → openWindows ≠ []) →
      ∃ res, getTopTileGroup env (some openWindows) ignoreTop = some res :=
  ⟨rfl, rfl, fun ws ignoreTop hwf hne => getTopTileGroup_returns env ws ignoreTop hwf hne⟩

theorem map_pushIf (f : Rect → Rect) (acc : List Rect) (c : Bool) (r : Rect) :
    (pushIf acc c r).map f = pushIf (acc.map f) c (f r) := by
  unfold pushIf
  cases c <;> simp

/-- C24: the two orientations of `rectDiff` are mirror images: for all (possibly
absent) rectangles `A`, `B` and every margin, `rectDiff(A, B, margin, false)` is,
element by element and in the same order, the transpose of
`rectDiff(transpose A, transpose B, margin, true)`. -/
theorem rectDiff_mirror (env : Env) (A B : Option Rect) (ignoreMargin : Int) :
    rectDiff env A B ignoreMargin (some false)
      = (rectDiff env (A.map Rect.transpose) (B.map Rect.transpose) ignoreMargin
          (some true)).map Rect.transpose := by
  cases A with
  | none => simp [rectDiff]
  | some A =>
    cases B with
    | none => simp [rectDiff]
    | some B =>
      simp only [Option.map_some', rectDiff, Bool.false_eq_true, if_false, if_true, map_pushIf,
        List.map_nil, Rect.transpose]

end TilingAssistant
